import Mathlib

/-!
Shallow embedding of the RFC 9421 HTTP message-signature subsystem of the
`node-api-template` repository: component extraction, signature-base
construction (inbound and outbound), the `Signature-Input` / `Signature`
header parsers, the verification state machine, the outbound signer, and
the JWKS key-resolver acquisition discipline.

Strings from the TypeScript source are modelled as Lean `String` /
`List Char`; byte arrays (`Uint8Array`) as `List Nat` with entries `< 256`;
JavaScript `undefined` as `Option.none`; thrown exceptions as
`Except.error` / `Option.none` on the affected code paths.  The opaque
platform primitives (WebCrypto RSA, SHA-256, the WHATWG URL parser) are
modelled as parameters or as explicitly documented canonical-form parsers.
-/

namespace HttpSig

/-- A header value as Node delivers it: a single string or a multi-value
array (`string | string[]`). -/
inductive HeaderValue where
  | str : String → HeaderValue
  | arr : List String → HeaderValue
deriving DecidableEq, Repr

/-- The slice of `FastifyRequest` consumed by the signature core:
method, protocol (scheme), hostname, raw `url` (path plus query string),
and the (Node-lowercased) header map. -/
structure InboundRequest where
  method : String
  protocol : String
  hostname : String
  url : String
  headers : List (String × HeaderValue)
deriving DecidableEq, Repr

/-- JS-object property read: first binding of the key (keys are unique in
a JS object, so first = only). -/
def jsGetH (headers : List (String × HeaderValue)) (k : String) : Option HeaderValue :=
  (headers.find? (fun p => p.1 = k)).map (·.2)

/-- JavaScript `String.prototype.startsWith`. -/
def jsStartsWith (s prefixStr : String) : Bool :=
  prefixStr.data.isPrefixOf s.data

/-- JavaScript `String.prototype.toLowerCase` (ASCII range, which is all
the source relies on for header names). -/
def strToLower (s : String) : String :=
  String.mk (s.data.map Char.toLower)

/-- JavaScript `String.prototype.toUpperCase` (ASCII range). -/
def strToUpper (s : String) : String :=
  String.mk (s.data.map Char.toUpper)

/-- `extractDerivedComponent` from `components.ts`: the `@`-prefixed
derived components. -/
def extractDerivedComponent (request : InboundRequest) (component : String) : Option String :=
  match component with
  | "@method" => some request.method
  | "@target-uri" => some (request.protocol ++ "://" ++ request.hostname ++ request.url)
  | "@authority" => some request.hostname
  | "@scheme" => some request.protocol
  | "@path" =>
    let cs := request.url.data
    let qi := (cs.takeWhile (fun c => c ≠ '?')).length
    some (if qi < cs.length then String.mk (cs.take qi) else request.url)
  | "@query" =>
    let cs := request.url.data
    let qi := (cs.takeWhile (fun c => c ≠ '?')).length
    some (if qi < cs.length then String.mk (cs.drop qi) else "?")
  | _ => none

/-- `extractComponent` from `components.ts`: derived components for
`@`-identifiers, otherwise a case-insensitive header lookup with
multi-value arrays joined by `", "`. -/
def extractComponent (request : InboundRequest) (component : String) : Option String :=
  if jsStartsWith component "@" then
    extractDerivedComponent request component
  else
    match jsGetH request.headers (strToLower component) with
    | some (HeaderValue.arr vs) => some (String.intercalate ", " vs)
    | some (HeaderValue.str v) => some v
    | none => none

/-- `ParsedSignatureInput` from `types.ts`. -/
structure ParsedSignatureInput where
  label : String
  components : List String
  keyid : String
  alg : String
  created : Option Nat := none
  expires : Option Nat := none
  nonce : Option String := none
deriving DecidableEq, Repr

/-- `ParsedSignature` from `types.ts` (`value` is the decoded byte array). -/
structure ParsedSignature where
  label : String
  value : List Nat
deriving DecidableEq, Repr

/-- Decimal digit list of a natural number, fuelled so that the kernel
can evaluate it (any `fuel > n` is enough). -/
def natReprAux : Nat → Nat → List Char
  | 0, _ => []
  | fuel + 1, n =>
    if n < 10 then [Char.ofNat (48 + n)]
    else natReprAux fuel (n / 10) ++ [Char.ofNat (48 + n % 10)]

/-- Decimal digit list of a natural number (the template-literal
interpolation `${n}` of a nonnegative integer). -/
def natRepr (n : Nat) : List Char := natReprAux (n + 1) n

/-- Decimal string of a natural number. -/
def natDecStr (n : Nat) : String := String.mk (natRepr n)

/-- `buildSignatureParams` from `signature-base.ts`: the quoted component
list in parentheses followed by `;keyid`, `;alg` and the optional
`;created`, `;expires`, `;nonce` parameters, appended in that order. -/
def buildSignatureParams (sigInput : ParsedSignatureInput) : String :=
  let componentsList := String.intercalate " " (sigInput.components.map (fun c => "\"" ++ c ++ "\""))
  let params := "(" ++ componentsList ++ ")"
  let params := params ++ ";keyid=\"" ++ sigInput.keyid ++ "\""
  let params := params ++ ";alg=\"" ++ sigInput.alg ++ "\""
  let params := match sigInput.created with
    | some t => params ++ ";created=" ++ natDecStr t
    | none => params
  let params := match sigInput.expires with
    | some t => params ++ ";expires=" ++ natDecStr t
    | none => params
  let params := match sigInput.nonce with
    | some n => params ++ ";nonce=\"" ++ n ++ "\""
    | none => params
  params

/-- `buildSignatureBase` from `signature-base.ts`: one line per resolvable
component (pushed in declared order; unresolvable components skipped),
then the final `"@signature-params"` line, joined by newlines. -/
def buildSignatureBase (request : InboundRequest) (sigInput : ParsedSignatureInput) : String :=
  let lines : List String := sigInput.components.foldl
    (fun acc component =>
      match extractComponent request component with
      | some value => acc ++ ["\"" ++ component ++ "\": " ++ value]
      | none => acc)
    []
  let lines := lines ++ ["\"@signature-params\": " ++ buildSignatureParams sigInput]
  String.intercalate "\n" lines

/-- ASCII `[a-zA-Z]` as in the parser's regexes. -/
def isAsciiAlpha (c : Char) : Bool :=
  ('a' ≤ c && c ≤ 'z') || ('A' ≤ c && c ≤ 'Z')

/-- ASCII `[a-zA-Z0-9_-]`, the label-continuation class. -/
def isLabelChar (c : Char) : Bool :=
  isAsciiAlpha c || ('0' ≤ c && c ≤ '9') || c = '_' || c = '-'

/-- ASCII `[0-9]`. -/
def isAsciiDigit (c : Char) : Bool :=
  '0' ≤ c && c ≤ '9'

/-- The character loop of `splitSignatures` from `parse.ts`: top-level
commas split; commas inside double quotes or parentheses do not; a quote
preceded by a backslash does not toggle the quote state.  `prev` is the
previously seen raw character (`header[i-1]`, `none` at index 0). -/
def splitSignaturesAux : List Char → Option Char → Int → Bool → List Char →
    List (List Char) → List (List Char)
  | [], _, _, _, current, results =>
    if current.isEmpty then results else results ++ [current]
  | c :: rest, prev, inParens, inQuotes, current, results =>
    if c = '"' && prev ≠ some '\\' then
      splitSignaturesAux rest (some c) inParens (!inQuotes) (current ++ [c]) results
    else if c = '(' && !inQuotes then
      splitSignaturesAux rest (some c) (inParens + 1) inQuotes (current ++ [c]) results
    else if c = ')' && !inQuotes then
      splitSignaturesAux rest (some c) (inParens - 1) inQuotes (current ++ [c]) results
    else if c = ',' && !inQuotes && inParens = 0 then
      splitSignaturesAux rest (some c) inParens inQuotes [] (results ++ [current])
    else
      splitSignaturesAux rest (some c) inParens inQuotes (current ++ [c]) results

/-- `splitSignatures` from `parse.ts`. -/
def splitSignatures (header : List Char) : List (List Char) :=
  splitSignaturesAux header none 0 false [] []

/-- JavaScript `String.prototype.trim`: whitespace stripped from both
ends. -/
def jsTrim (cs : List Char) : List Char :=
  ((cs.dropWhile Char.isWhitespace).reverse.dropWhile Char.isWhitespace).reverse

/-- Fuelled scan of the regex `/"([^"]+)"/g` (any `fuel ≥` the input
length is enough; every step consumes at least one character). -/
def scanQuotedAux : Nat → List Char → List (List Char)
  | 0, _ => []
  | _, [] => []
  | fuel + 1, c :: rest =>
    if c = '"' then
      let inner := rest.takeWhile (fun x => x ≠ '"')
      match rest.drop inner.length with
      | '"' :: tail =>
        if inner.isEmpty then scanQuotedAux fuel rest
        else inner :: scanQuotedAux fuel tail
      | _ => scanQuotedAux fuel rest
    else
      scanQuotedAux fuel rest

/-- The global scan of the regex `/"([^"]+)"/g`: every maximal
double-quoted run of one or more non-quote characters, leftmost first,
resuming after each match. -/
def scanQuoted (cs : List Char) : List (List Char) :=
  scanQuotedAux cs.length cs

/-- The search of a regex of shape `;name="([^"]+)"` (pattern `pat`
includes the opening quote): leftmost position where the literal prefix is
followed by one or more non-quote characters and a closing quote. -/
def findQuotedParam (pat : List Char) : List Char → Option (List Char)
  | [] => none
  | c :: t =>
    if pat.isPrefixOf (c :: t) then
      let rest := (c :: t).drop pat.length
      let inner := rest.takeWhile (fun x => x ≠ '"')
      if !inner.isEmpty && (rest.drop inner.length).head? = some '"' then some inner
      else findQuotedParam pat t
    else findQuotedParam pat t

/-- The search of a regex of shape `;name=(\d+)`: leftmost position where
the literal prefix is followed by at least one digit; captures the maximal
digit run. -/
def findIntParam (pat : List Char) : List Char → Option (List Char)
  | [] => none
  | c :: t =>
    if pat.isPrefixOf (c :: t) then
      let digits := ((c :: t).drop pat.length).takeWhile isAsciiDigit
      if digits.isEmpty then findIntParam pat t else some digits
    else findIntParam pat t

/-- `parseInt(digits, 10)` on a pure decimal digit string. -/
def foldDigits (cs : List Char) : Nat :=
  cs.foldl (fun acc c => acc * 10 + (c.toNat - 48)) 0

/-- `parseSingleSignatureInput` from `parse.ts`: anchored match of
`^([a-zA-Z][a-zA-Z0-9_-]*)=\(([^)]*)\)`, component extraction via
`/"([^"]+)"/g`, then independent scans of the parameter regexes over the
remainder; `none` when the label pattern or a mandatory parameter
(`keyid`, `alg`) is missing. -/
def parseSingleSignatureInput (input : List Char) : Option ParsedSignatureInput :=
  match input with
  | [] => none
  | c :: rest =>
    if isAsciiAlpha c then
      let labelRest := rest.takeWhile isLabelChar
      let afterLabel := rest.drop labelRest.length
      match afterLabel with
      | '=' :: '(' :: r2 =>
        let compStr := r2.takeWhile (fun x => x ≠ ')')
        match r2.drop compStr.length with
        | ')' :: params =>
          let components := (scanQuoted compStr).map String.mk
          let keyid := findQuotedParam ";keyid=\"".data params
          let alg := findQuotedParam ";alg=\"".data params
          let created := findIntParam ";created=".data params
          let expires := findIntParam ";expires=".data params
          let nonce := findQuotedParam ";nonce=\"".data params
          match keyid, alg with
          | some k, some a =>
            some { label := String.mk (c :: labelRest)
                   components := components
                   keyid := String.mk k
                   alg := String.mk a
                   created := created.map foldDigits
                   expires := expires.map foldDigits
                   nonce := nonce.map String.mk }
          | _, _ => none
        | _ => none
      | _ => none
    else none

/-- `parseSignatureInput` from `parse.ts`: split on top-level commas, trim
each segment, parse it, and keep the segments that parsed. -/
def parseSignatureInput (header : String) : List ParsedSignatureInput :=
  (splitSignatures header.data).filterMap (fun s => parseSingleSignatureInput (jsTrim s))

/-- The character class `[A-Za-z0-9+/=]` of the `Signature` header
regex. -/
def isB64Char (c : Char) : Bool :=
  isAsciiAlpha c || isAsciiDigit c || c = '+' || c = '/' || c = '='

/-- Fuelled scan of `/([a-zA-Z][a-zA-Z0-9_-]*)=:([A-Za-z0-9+\/=]+):/g`
(any `fuel ≥` the input length is enough). -/
def scanSignaturesAux : Nat → List Char → List (String × List Char)
  | 0, _ => []
  | _, [] => []
  | fuel + 1, c :: rest =>
    if isAsciiAlpha c then
      let labelRest := rest.takeWhile isLabelChar
      match rest.drop labelRest.length with
      | '=' :: ':' :: r2 =>
        let b64 := r2.takeWhile isB64Char
        if !b64.isEmpty && (r2.drop b64.length).head? = some ':' then
          (String.mk (c :: labelRest), b64) ::
            scanSignaturesAux fuel ((r2.drop b64.length).tail)
        else scanSignaturesAux fuel rest
      | _ => scanSignaturesAux fuel rest
    else scanSignaturesAux fuel rest

/-- The global scan of `/([a-zA-Z][a-zA-Z0-9_-]*)=:([A-Za-z0-9+\/=]+):/g`
from `parseSignature`: leftmost matches, resuming after each match,
advancing one character on a failed attempt. -/
def scanSignatures (cs : List Char) : List (String × List Char) :=
  scanSignaturesAux cs.length cs

/-- The standard base64 alphabet used by `btoa` / `atob`. -/
def b64Alphabet : List Char :=
  "ABCDEFGHIJKLMNOPQRSTUVWXYZabcdefghijklmnopqrstuvwxyz0123456789+/".data

/-- Digit-to-character of the base64 alphabet. -/
def b64Char (n : Nat) : Char := b64Alphabet.getD n 'A'

/-- Character-to-digit of the base64 alphabet. -/
def b64Value (c : Char) : Option Nat := b64Alphabet.findIdx? (fun x => x = c)

/-- `uint8ArrayToBase64` (`btoa` over the byte string): standard base64
with `=` padding. -/
def base64Encode : List Nat → List Char
  | [] => []
  | [a] => [b64Char (a / 4), b64Char (a % 4 * 16), '=', '=']
  | [a, b] => [b64Char (a / 4), b64Char (a % 4 * 16 + b / 16), b64Char (b % 16 * 4), '=']
  | a :: b :: c :: rest =>
    b64Char (a / 4) :: b64Char (a % 4 * 16 + b / 16) :: b64Char (b % 16 * 4 + c / 64) ::
      b64Char (c % 64) :: base64Encode rest

/-- `base64ToUint8Array` (`atob` and char codes): `none` models a thrown
`InvalidCharacterError`. -/
def base64Decode : List Char → Option (List Nat)
  | [] => some []
  | [a, b, '=', '='] => do
    let x ← b64Value a
    let y ← b64Value b
    pure [x * 4 + y / 16]
  | [a, b, c, '='] => do
    let x ← b64Value a
    let y ← b64Value b
    let z ← b64Value c
    pure [x * 4 + y / 16, y % 16 * 16 + z / 4]
  | a :: b :: c :: d :: rest => do
    let x ← b64Value a
    let y ← b64Value b
    let z ← b64Value c
    let w ← b64Value d
    let r ← base64Decode rest
    pure ([x * 4 + y / 16, y % 16 * 16 + z / 4, z % 4 * 64 + w] ++ r)
  | _ => none

/-- `parseSignature` from `parse.ts`: every `label=:base64:` match whose
payload decodes; matches with malformed base64 are skipped. -/
def parseSignature (header : String) : List ParsedSignature :=
  (scanSignatures header.data).filterMap
    (fun p => (base64Decode p.2).map (fun v => ParsedSignature.mk p.1 v))

/-- `VerificationResult` from `verify.ts`: `valid` plus the optional
success fields and the optional failure code. -/
structure VerificationResult where
  valid : Bool
  keyId : Option String := none
  algorithm : Option String := none
  components : Option (List String) := none
  created : Option Nat := none
  error : Option String := none
deriving DecidableEq, Repr

/-- `SignatureAlgorithm` from `types.ts`, over an abstract key type `K`
(the WebCrypto key objects).  `verify` and `sign` are the opaque native
crypto primitives; `Except.error` models a thrown exception. -/
structure SignatureAlgorithm (K : Type) where
  name : String
  verify : K → List Nat → List Nat → Except Unit Bool
  sign : K → List Nat → Except Unit (List Nat)

/-- `KeyResolver` from `jwks.ts`: `resolve(keyId, algorithm)`;
`Except.error` models a rejected promise. -/
structure KeyResolver (K : Type) where
  resolve : String → String → Except Unit K

/-- The `Partial<HttpSigOptions>` fields read by `verifySignature`:
`maxAge` (destructuring default 300) and the optional algorithm
allow-list. -/
structure VerifyOptions where
  maxAge : Option Nat := none
  algorithms : Option (List String) := none

/-- `new TextEncoder().encode(...)`: the UTF-8 bytes of a string. -/
def utf8Bytes (s : String) : List Nat :=
  s.toUTF8.toList.map (fun b => b.toNat)

/-- A failure `VerificationResult` object literal `{valid:false, error}`. -/
def mkErrorResult (e : String) : VerificationResult :=
  { valid := false, error := some e }

/-- `verifySignature` from `verify.ts`, parameterized over the current
Unix time `now` (`Math.floor(Date.now()/1000)`) and the algorithm
registry lookup `getAlgo` (`getAlgorithm` of `algorithms/index.ts`).
Sequential checks, each early-returning a failure object: algorithm
known, algorithm allowed, `created` freshness (max age, then 60-second
future skew), explicit `expires`, key resolution (a throw is
`key_not_found`), then cryptographic verification (`false` is
`invalid_signature`, a throw is `verification_failed`); otherwise the
success record echoes `keyid`, `alg`, `components`, `created`. -/
def verifySignature {K : Type} (now : Nat)
    (getAlgo : String → Option (SignatureAlgorithm K))
    (request : InboundRequest) (sigInput : ParsedSignatureInput)
    (signature : ParsedSignature) (keyResolver : KeyResolver K)
    (options : VerifyOptions) : VerificationResult :=
  let maxAge := options.maxAge.getD 300
  match getAlgo sigInput.alg with
  | none => mkErrorResult "unsupported_algorithm"
  | some algo =>
    if (match options.algorithms with
        | some allow => !allow.contains sigInput.alg
        | none => false) then
      mkErrorResult "algorithm_not_allowed"
    else if (match sigInput.created with
        | some created => ((now : Int) - created > (maxAge : Int) : Bool)
        | none => false) then
      mkErrorResult "signature_expired"
    else if (match sigInput.created with
        | some created => ((now : Int) - created < -60 : Bool)
        | none => false) then
      mkErrorResult "signature_future"
    else if (match sigInput.expires with
        | some expires => (now > expires : Bool)
        | none => false) then
      mkErrorResult "signature_expired"
    else
      match keyResolver.resolve sigInput.keyid sigInput.alg with
      | Except.error _ => mkErrorResult "key_not_found"
      | Except.ok publicKey =>
        let signatureBase := buildSignatureBase request sigInput
        let data := utf8Bytes signatureBase
        match algo.verify publicKey signature.value data with
        | Except.error _ => mkErrorResult "verification_failed"
        | Except.ok false => mkErrorResult "invalid_signature"
        | Except.ok true =>
          { valid := true
            keyId := some sigInput.keyid
            algorithm := some sigInput.alg
            components := some sigInput.components
            created := sigInput.created }

/-- The component-coverage filter of the `httpSig` middleware
(`index.ts`): the caller-required components not covered by the parsed
signature input; a nonempty result makes the middleware answer
`missing_components` before `verifySignature` is ever called. -/
def middlewareMissingComponents (required : List String)
    (sigInput : ParsedSignatureInput) : List String :=
  required.filter (fun c => !sigInput.components.contains c)

/-- `SignRequestData` from `types.ts`: the caller-supplied outgoing
request description. -/
structure SignRequestData where
  method : String
  url : String
  headers : List (String × String)
  body : Option String := none
deriving DecidableEq, Repr

/-- JS-object property read on a string-valued header map. -/
def jsGet (headers : List (String × String)) (k : String) : Option String :=
  (headers.find? (fun p => p.1 = k)).map (·.2)

/-- JS-object property write: overwrite an existing key, else append. -/
def jsSet (headers : List (String × String)) (k v : String) : List (String × String) :=
  if (headers.find? (fun p => p.1 = k)).isSome then
    headers.map (fun p => if p.1 = k then (k, v) else p)
  else headers ++ [(k, v)]

/-- `header.split('-')` on the character list. -/
def splitDash : List Char → List (List Char)
  | [] => [[]]
  | c :: t =>
    if c = '-' then [] :: splitDash t
    else
      match splitDash t with
      | p :: ps => (c :: p) :: ps
      | [] => [[c]]

/-- One part of `capitalizeHeader`:
`part.charAt(0).toUpperCase() + part.slice(1).toLowerCase()`. -/
def capPart : List Char → List Char
  | [] => []
  | c :: t => c.toUpper :: t.map Char.toLower

/-- `parts.join('-')`. -/
def joinDash : List (List Char) → List Char
  | [] => []
  | [p] => p
  | p :: ps => p ++ '-' :: joinDash ps

/-- `capitalizeHeader` from `sign.ts`. -/
def capitalizeHeader (header : String) : String :=
  String.mk (joinDash ((splitDash header.data).map capPart))

/-- The fields of a WHATWG `URL` object read by the signer: `scheme` is
the protocol without the trailing colon (the source computes
`url.protocol.replace(':', '')`), `host` includes any port, `search` is
either empty or `?` followed by a nonempty query. -/
structure URLParts where
  scheme : String
  host : String
  pathname : String
  search : String
deriving DecidableEq, Repr

/-- Models the WHATWG `new URL(...)` parser used by the source, on
http(s)-style URLs already in canonical `scheme://host/path[?query]` form
(nonempty scheme without `:`, nonempty host without `/` or `?`, path
starting with `/`, and no trailing empty `?`).  URLs outside this
canonical fragment are outside the model and yield `none` (the source
would throw or normalize). -/
def urlParse (u : String) : Option URLParts :=
  let cs := u.data
  let scheme := cs.takeWhile (fun c => c ≠ ':')
  match cs.drop scheme.length with
  | ':' :: '/' :: '/' :: r2 =>
    if scheme.isEmpty then none
    else
      let host := r2.takeWhile (fun c => c ≠ '/' && c ≠ '?')
      if host.isEmpty then none
      else
        match r2.drop host.length with
        | '/' :: r3 =>
          let pathname := '/' :: r3.takeWhile (fun c => c ≠ '?')
          match r3.drop (r3.takeWhile (fun c => c ≠ '?')).length with
          | [] => some ⟨String.mk scheme, String.mk host, String.mk pathname, ""⟩
          | ['?'] => none
          | '?' :: q => some ⟨String.mk scheme, String.mk host, String.mk pathname,
              String.mk ('?' :: q)⟩
          | _ => none
        | _ => none
  | _ => none

/-- The `switch` in the component loop of `buildOutgoingSignatureBase`
(`sign.ts`): derived components from the request description and the
parsed URL, everything else a header lookup trying the identifier
verbatim, lowercased, then `capitalizeHeader`-cased. -/
def outboundComponentValue (request : SignRequestData)
    (headers : List (String × String)) (url : URLParts)
    (component : String) : Option String :=
  match component with
  | "@method" => some request.method
  | "@target-uri" => some request.url
  | "@authority" => some url.host
  | "@scheme" => some url.scheme
  | "@path" => some url.pathname
  | "@query" => some (if url.search = "" then "?" else url.search)
  | _ =>
    (jsGet headers component).orElse (fun _ =>
      (jsGet headers (strToLower component)).orElse (fun _ =>
        jsGet headers (capitalizeHeader component)))

/-- `buildOutgoingSignatureBase` from `sign.ts`: parse the target URL
(`none` models the `new URL` throw), emit one line per resolvable
component in declared order, then the `"@signature-params"` line with
`keyid`, `alg` and `created`. -/
def buildOutgoingSignatureBase (request : SignRequestData)
    (headers : List (String × String)) (components : List String)
    (keyId algorithm : String) (created : Nat) : Option String :=
  match urlParse request.url with
  | none => none
  | some url =>
    let lines : List String := components.foldl
      (fun acc component =>
        match outboundComponentValue request headers url component with
        | some value => acc ++ ["\"" ++ component ++ "\": " ++ value]
        | none => acc)
      []
    let componentsList := String.intercalate " " (components.map (fun c => "\"" ++ c ++ "\""))
    let lines := lines ++ ["\"@signature-params\": (" ++ componentsList ++ ");keyid=\"" ++
      keyId ++ "\";alg=\"" ++ algorithm ++ "\";created=" ++ natDecStr created]
    some (String.intercalate "\n" lines)

/-- `computeContentDigest` from `sign.ts`, over an abstract SHA-256
primitive (`crypto.createHash('sha256')`). -/
def computeContentDigest (sha256 : String → List Nat) (body : String) : String :=
  "sha-256=:" ++ String.mk (base64Encode (sha256 body)) ++ ":"

/-- The `sign` closure returned by `createSigner` (`sign.ts`), over the
bound algorithm/key/keyId/components, an abstract SHA-256, and the
current Unix time `now` (`Math.floor(Date.now()/1000)`).  Copies the
caller headers, adds `Content-Digest` when a truthy (nonempty) body is
present and `content-digest` is a bound component, builds and signs the
outgoing signature base, then adds `Signature-Input` and `Signature`.
`none` models a throw (invalid URL or a signing failure). -/
def signRequest {K : Type} (algo : SignatureAlgorithm K) (key : K)
    (keyId algorithm : String) (components : List String)
    (sha256 : String → List Nat) (now : Nat)
    (request : SignRequestData) : Option (List (String × String)) :=
  let result := request.headers
  let created := now
  let result :=
    if (match request.body with
        | some body => body ≠ "" && components.contains "content-digest"
        | none => false) then
      jsSet result "Content-Digest"
        (computeContentDigest sha256 (request.body.getD ""))
    else result
  match buildOutgoingSignatureBase request result components keyId algorithm created with
  | none => none
  | some signatureBase =>
    match algo.sign key (utf8Bytes signatureBase) with
    | Except.error _ => none
    | Except.ok signatureBytes =>
      let base64Sig := String.mk (base64Encode signatureBytes)
      let componentsList := String.intercalate " " (components.map (fun c => "\"" ++ c ++ "\""))
      let result := jsSet result "Signature-Input"
        ("sig1=(" ++ componentsList ++ ");keyid=\"" ++ keyId ++ "\";alg=\"" ++ algorithm ++
          "\";created=" ++ natDecStr created)
      let result := jsSet result "Signature" ("sig1=:" ++ base64Sig ++ ":")
      some result

/-- One underlying remote-key-set fetcher / resolver object, identified
by its creation index. -/
structure ResolverInstance where
  id : Nat
  url : String
deriving DecidableEq, Repr

/-- Process-wide resolver state of `jwks.ts`: the module-level
`defaultResolver` slot and a count of `createRemoteJWKSet` fetchers
constructed so far. -/
structure ResolverState where
  defaultResolver : Option ResolverInstance := none
  fetchersCreated : Nat := 0
deriving DecidableEq, Repr

/-- `createKeyResolver` from `jwks.ts`: always constructs a fresh remote
key set fetcher and resolver object. -/
def createKeyResolverOp (jwksUrl : String) (s : ResolverState) :
    ResolverInstance × ResolverState :=
  ({ id := s.fetchersCreated, url := jwksUrl },
   { s with fetchersCreated := s.fetchersCreated + 1 })

/-- `getDefaultKeyResolver` from `jwks.ts`: lazily fills the single
module-level `defaultResolver` slot and afterwards returns it unchanged
(the URL argument of later calls is ignored). -/
def getDefaultKeyResolverOp (jwksUrl : String) (s : ResolverState) :
    ResolverInstance × ResolverState :=
  match s.defaultResolver with
  | some r => (r, s)
  | none =>
    let p := createKeyResolverOp jwksUrl s
    (p.1, { p.2 with defaultResolver := some p.1 })

/-- The resolver acquisition the `httpSig` middleware actually performs
per request (`index.ts`: `const keyResolver = createKeyResolver(jwksUrl)`
inside the request handler). -/
def httpSigAcquireResolver (jwksUrl : String) (s : ResolverState) :
    ResolverInstance × ResolverState :=
  createKeyResolverOp jwksUrl s

/-- An inbound request and an outbound request description (plus the
header map handed to the outbound builder) carry equivalent inputs: same
method, the inbound protocol/hostname/url are the decomposition of the
outbound target URL, and the inbound header map is the outbound one as
Node would deliver it (single-valued, lowercase keys, none of them
`@`-prefixed). -/
def InboundEquivalent (req : InboundRequest) (r : SignRequestData)
    (headers : List (String × String)) (parts : URLParts) : Prop :=
  urlParse r.url = some parts ∧
  req.method = r.method ∧
  req.protocol = parts.scheme ∧
  req.hostname = parts.host ∧
  req.url = parts.pathname ++ parts.search ∧
  req.headers = headers.map (fun p => (p.1, HeaderValue.str p.2)) ∧
  (∀ p ∈ headers, strToLower p.1 = p.1 ∧ jsStartsWith p.1 "@" = false)

/-- The inbound request produced when a signed outbound request is
received: same method, URL decomposed per its parse, and the sent headers
delivered with Node-lowercased names. -/
def receivedRequest (r : SignRequestData) (signed : List (String × String))
    (parts : URLParts) : InboundRequest :=
  { method := r.method
    protocol := parts.scheme
    hostname := parts.host
    url := parts.pathname ++ parts.search
    headers := signed.map (fun p => (strToLower p.1, HeaderValue.str p.2)) }

/-- The verification pipeline of the `httpSig` middleware (`index.ts`)
from the parse step onwards: read the two signature headers, parse both,
take the first parsed signature input and the signature with the matching
label, and run `verifySignature`; `none` stands for the middleware
challenges issued before `verifySignature` is reached (missing headers,
empty parse results, label mismatch). -/
def middlewareVerify {K : Type} (now : Nat)
    (getAlgo : String → Option (SignatureAlgorithm K))
    (req : InboundRequest) (keyResolver : KeyResolver K)
    (options : VerifyOptions) : Option VerificationResult :=
  match jsGetH req.headers "signature", jsGetH req.headers "signature-input" with
  | some (HeaderValue.str signatureHeader), some (HeaderValue.str signatureInputHeader) =>
    let sigInputs := parseSignatureInput signatureInputHeader
    let signatures := parseSignature signatureHeader
    match sigInputs.head? with
    | none => none
    | some sigInput =>
      match signatures.find? (fun s => s.label = sigInput.label) with
      | none => none
      | some signature =>
        some (verifySignature now getAlgo req sigInput signature keyResolver options)
  | _, _ => none

/-! ## General helper lemmas -/

theorem foldl_lines (f : String → Option String) (components : List String)
    (acc : List String) :
    components.foldl
      (fun a c =>
        match f c with
        | some v => a ++ ["\"" ++ c ++ "\": " ++ v]
        | none => a)
      acc
      = acc ++ components.filterMap
          (fun c => (f c).map (fun v => "\"" ++ c ++ "\": " ++ v)) := by
  induction components generalizing acc with
  | nil => simp
  | cons c t ih =>
    cases h : f c with
    | none => simp [List.foldl_cons, h, ih]
    | some v => simp [List.foldl_cons, h, ih]

theorem takeWhile_append_stop {α : Type} (p : α → Bool) (pre : List α) (x : α)
    (post : List α) (hpre : ∀ c ∈ pre, p c = true) (hx : p x = false) :
    (pre ++ x :: post).takeWhile p = pre := by
  induction pre with
  | nil => simp [List.takeWhile_cons, hx]
  | cons a t ih =>
    simp only [List.cons_append, List.takeWhile_cons]
    rw [hpre a (by simp)]
    simp [ih (fun c hc => hpre c (by simp [hc]))]

theorem takeWhile_all {α : Type} (p : α → Bool) (l : List α)
    (h : ∀ c ∈ l, p c = true) : l.takeWhile p = l := by
  induction l with
  | nil => rfl
  | cons a t ih =>
    simp only [List.takeWhile_cons]
    rw [h a (by simp)]
    simp [ih (fun c hc => h c (by simp [hc]))]

/-! ## C5: signature base format -/

theorem buildSignatureParams_eq (si : ParsedSignatureInput) :
    buildSignatureParams si =
      "(" ++ String.intercalate " " (si.components.map (fun c => "\"" ++ c ++ "\"")) ++ ")" ++
        ";keyid=\"" ++ si.keyid ++ "\"" ++ ";alg=\"" ++ si.alg ++ "\"" ++
        (match si.created with | some t => ";created=" ++ natDecStr t | none => "") ++
        (match si.expires with | some t => ";expires=" ++ natDecStr t | none => "") ++
        (match si.nonce with | some n => ";nonce=\"" ++ n ++ "\"" | none => "") := by
  obtain ⟨l, comps, k, a, cr, ex, no⟩ := si
  simp only [buildSignatureParams]
  cases cr <;> cases ex <;> cases no <;>
    apply String.ext <;>
    simp [String.data_append]

/-- C5.  Signature base format: `buildSignatureBase` emits, in declared
order with duplicates preserved, one `"<identifier>": <value>` line per
component whose value resolves, silently skips every component whose
value is `undefined`, and appends exactly one final
`"@signature-params": ` line whose value is the parenthesized
space-joined quoted component list followed by `;keyid="…"`, `;alg="…"`,
then the optional `;created=<int>`, `;expires=<int>`, `;nonce="…"` in
that fixed order, each omitted when absent. -/
theorem signature_base_format (request : InboundRequest) (si : ParsedSignatureInput) :
    buildSignatureBase request si =
      String.intercalate "\n"
        ((si.components.filterMap
            (fun c => (extractComponent request c).map (fun v => "\"" ++ c ++ "\": " ++ v)))
          ++ ["\"@signature-params\": " ++
              ("(" ++ String.intercalate " " (si.components.map (fun c => "\"" ++ c ++ "\"")) ++ ")" ++
                ";keyid=\"" ++ si.keyid ++ "\"" ++ ";alg=\"" ++ si.alg ++ "\"" ++
                (match si.created with | some t => ";created=" ++ natDecStr t | none => "") ++
                (match si.expires with | some t => ";expires=" ++ natDecStr t | none => "") ++
                (match si.nonce with | some n => ";nonce=\"" ++ n ++ "\"" | none => ""))]) := by
  simp only [buildSignatureBase]
  rw [foldl_lines (fun c => extractComponent request c), buildSignatureParams_eq]
  simp

/-! ## C7: derived component extraction -/

/-- C7.  Derived component extraction: for every inbound request (whose
method is uppercase, as the HTTP transport guarantees), `extractComponent`
returns the uppercase HTTP method for `"@method"`; for `"@query"` it
returns the query portion of the URL including the leading `?`, or the
literal string `"?"` when the URL contains no query string. -/
theorem derived_component_extraction (req : InboundRequest)
    (hup : strToUpper req.method = req.method) :
    extractComponent req "@method" = some (strToUpper req.method)
    ∧ (∀ pre post : List Char, req.url.data = pre ++ '?' :: post → ('?' : Char) ∉ pre →
        extractComponent req "@query" = some (String.mk ('?' :: post)))
    ∧ (('?' : Char) ∉ req.url.data → extractComponent req "@query" = some "?") := by
  refine ⟨?_, ?_, ?_⟩
  · rw [hup]; rfl
  · intro pre post hurl hmem
    have h1 : List.takeWhile (fun c => decide (c ≠ '?')) (pre ++ '?' :: post) = pre :=
      takeWhile_append_stop _ pre '?' post
        (fun c hc => by simp; exact fun h => hmem (h ▸ hc)) (by simp)
    show extractDerivedComponent req "@query" = _
    simp only [extractDerivedComponent, hurl, h1]
    have hlt : pre.length < (pre ++ '?' :: post).length := by simp
    rw [if_pos hlt, List.drop_left]
  · intro hmem
    have h1 : req.url.data.takeWhile (fun c => c ≠ '?') = req.url.data :=
      takeWhile_all _ _ (fun c hc => by simp; exact fun h => hmem (h ▸ hc))
    show extractDerivedComponent req "@query" = _
    simp only [extractDerivedComponent, h1]
    simp

/-- Witness for C7: the concrete request of spec scenario 2
(`GET /api/data`, no query string) yields `@method = "GET"` and
`@query = "?"`. -/
theorem derived_component_extraction_witness :
    extractComponent ⟨"GET", "https", "example.com", "/api/data", []⟩ "@method" = some "GET"
    ∧ extractComponent ⟨"GET", "https", "example.com", "/api/data", []⟩ "@query" = some "?" := by
  have h := derived_component_extraction ⟨"GET", "https", "example.com", "/api/data", []⟩
    (by decide)
  refine ⟨?_, h.2.2 (by decide)⟩
  have h1 := h.1
  rwa [show strToUpper "GET" = "GET" from by decide] at h1

/-! ## C4: freshness and clock-skew boundaries -/

/-- C4.  With `created` present, `maxAge = 300`, no explicit `expires`,
and every other check passing (known algorithm, no allow-list, resolving
key, verifying signature), `verifySignature` returns `signature_expired`
exactly when `now - created > 300` and `signature_future` exactly when
`now - created < -60`; in the remaining window it succeeds. -/
theorem freshness_clock_skew_boundaries {K : Type} (now c : Nat)
    (getAlgo : String → Option (SignatureAlgorithm K)) (req : InboundRequest)
    (si : ParsedSignatureInput) (sig : ParsedSignature) (resolver : KeyResolver K)
    (algo : SignatureAlgorithm K) (k : K)
    (halg : getAlgo si.alg = some algo)
    (hcreated : si.created = some c) (hexp : si.expires = none)
    (hres : resolver.resolve si.keyid si.alg = Except.ok k)
    (hver : algo.verify k sig.value (utf8Bytes (buildSignatureBase req si)) = Except.ok true) :
    (verifySignature now getAlgo req si sig resolver ⟨some 300, none⟩ =
        mkErrorResult "signature_expired" ↔ (now : Int) - c > 300)
    ∧ (verifySignature now getAlgo req si sig resolver ⟨some 300, none⟩ =
        mkErrorResult "signature_future" ↔ (now : Int) - c < -60)
    ∧ (-60 ≤ (now : Int) - c → (now : Int) - c ≤ 300 →
        verifySignature now getAlgo req si sig resolver ⟨some 300, none⟩ =
          { valid := true, keyId := some si.keyid, algorithm := some si.alg,
            components := some si.components, created := some c }) := by
  by_cases h1 : (now : Int) - c > 300
  · have hr : verifySignature now getAlgo req si sig resolver ⟨some 300, none⟩ =
        mkErrorResult "signature_expired" := by
      simp [verifySignature, halg, hcreated, hexp, h1]
    rw [hr]
    refine ⟨⟨fun _ => h1, fun _ => rfl⟩, ?_, fun _ hle => absurd h1 (by omega)⟩
    constructor
    · intro he
      exact absurd he (by decide)
    · intro hlt
      exact absurd h1 (by omega)
  · by_cases h2 : (now : Int) - c < -60
    · have hr : verifySignature now getAlgo req si sig resolver ⟨some 300, none⟩ =
          mkErrorResult "signature_future" := by
        simp [verifySignature, halg, hcreated, hexp, h1, h2]
      rw [hr]
      refine ⟨?_, ⟨fun _ => h2, fun _ => rfl⟩, fun hge _ => absurd h2 (by omega)⟩
      constructor
      · intro he
        exact absurd he (by decide)
      · intro hgt
        exact absurd h1 ((not_not.mpr hgt) : _)
    · have hr : verifySignature now getAlgo req si sig resolver ⟨some 300, none⟩ =
          { valid := true, keyId := some si.keyid, algorithm := some si.alg,
            components := some si.components, created := some c } := by
        simp [verifySignature, halg, hcreated, hexp, h1, h2, hres, hver]
      rw [hr]
      refine ⟨?_, ?_, fun _ _ => rfl⟩
      · constructor
        · intro he
          exact absurd (congrArg VerificationResult.valid he) (by simp [mkErrorResult])
        · intro hgt
          exact absurd hgt h1
      · constructor
        · intro he
          exact absurd (congrArg VerificationResult.valid he) (by simp [mkErrorResult])
        · intro hlt
          exact absurd hlt h2

/-- Witness for C4 at the four boundary instances of the claim
(`now = 10000`, `created = now - 301`, `now - 299`, `now + 61`,
`now + 30`), with a trivially succeeding algorithm and resolver. -/
theorem freshness_clock_skew_boundaries_witness :
    (verifySignature (K := Unit) 10000
        (fun _ => some ⟨"rsa-pss-sha512", fun _ _ _ => Except.ok true, fun _ _ => Except.ok []⟩)
        ⟨"GET", "https", "example.com", "/", []⟩
        ⟨"sig1", ["@method"], "k1", "rsa-pss-sha512", some 9699, none, none⟩
        ⟨"sig1", [1]⟩ ⟨fun _ _ => Except.ok ()⟩ ⟨some 300, none⟩ =
      mkErrorResult "signature_expired")
    ∧ (verifySignature (K := Unit) 10000
        (fun _ => some ⟨"rsa-pss-sha512", fun _ _ _ => Except.ok true, fun _ _ => Except.ok []⟩)
        ⟨"GET", "https", "example.com", "/", []⟩
        ⟨"sig1", ["@method"], "k1", "rsa-pss-sha512", some 9701, none, none⟩
        ⟨"sig1", [1]⟩ ⟨fun _ _ => Except.ok ()⟩ ⟨some 300, none⟩ =
      { valid := true, keyId := some "k1", algorithm := some "rsa-pss-sha512",
        components := some ["@method"], created := some 9701 })
    ∧ (verifySignature (K := Unit) 10000
        (fun _ => some ⟨"rsa-pss-sha512", fun _ _ _ => Except.ok true, fun _ _ => Except.ok []⟩)
        ⟨"GET", "https", "example.com", "/", []⟩
        ⟨"sig1", ["@method"], "k1", "rsa-pss-sha512", some 10061, none, none⟩
        ⟨"sig1", [1]⟩ ⟨fun _ _ => Except.ok ()⟩ ⟨some 300, none⟩ =
      mkErrorResult "signature_future")
    ∧ (verifySignature (K := Unit) 10000
        (fun _ => some ⟨"rsa-pss-sha512", fun _ _ _ => Except.ok true, fun _ _ => Except.ok []⟩)
        ⟨"GET", "https", "example.com", "/", []⟩
        ⟨"sig1", ["@method"], "k1", "rsa-pss-sha512", some 10030, none, none⟩
        ⟨"sig1", [1]⟩ ⟨fun _ _ => Except.ok ()⟩ ⟨some 300, none⟩ =
      { valid := true, keyId := some "k1", algorithm := some "rsa-pss-sha512",
        components := some ["@method"], created := some 10030 }) := by
  refine ⟨?_, ?_, ?_, ?_⟩
  · exact (freshness_clock_skew_boundaries 10000 9699 _ _ _ _ _ _ ()
      rfl rfl rfl rfl rfl).1.mpr (by decide)
  · exact (freshness_clock_skew_boundaries 10000 9701 _ _ _ _ _ _ ()
      rfl rfl rfl rfl rfl).2.2 (by decide) (by decide)
  · exact (freshness_clock_skew_boundaries 10000 10061 _ _ _ _ _ _ ()
      rfl rfl rfl rfl rfl).2.1.mpr (by decide)
  · exact (freshness_clock_skew_boundaries 10000 10030 _ _ _ _ _ _ ()
      rfl rfl rfl rfl rfl).2.2 (by decide) (by decide)

/-! ## C3: verifier state machine -/

theorem verify_checks_pass {K : Type} (now : Nat)
    (getAlgo : String → Option (SignatureAlgorithm K)) (req : InboundRequest)
    (si : ParsedSignatureInput) (sig : ParsedSignature) (resolver : KeyResolver K)
    (opts : VerifyOptions) (algo : SignatureAlgorithm K)
    (hga : getAlgo si.alg = some algo)
    (hallow : ∀ allow, opts.algorithms = some allow → si.alg ∈ allow)
    (hfresh : ∀ c, si.created = some c → ¬((now : Int) - c > (opts.maxAge.getD 300 : Int)))
    (hfut : ∀ c, si.created = some c → ¬((now : Int) - c < -60))
    (hexp : ∀ e, si.expires = some e → ¬(now > e)) :
    verifySignature now getAlgo req si sig resolver opts =
      (match resolver.resolve si.keyid si.alg with
       | Except.error _ => mkErrorResult "key_not_found"
       | Except.ok publicKey =>
         match algo.verify publicKey sig.value (utf8Bytes (buildSignatureBase req si)) with
         | Except.error _ => mkErrorResult "verification_failed"
         | Except.ok false => mkErrorResult "invalid_signature"
         | Except.ok true =>
           { valid := true, keyId := some si.keyid, algorithm := some si.alg,
             components := some si.components, created := si.created }) := by
  cases hao : opts.algorithms with
  | none =>
    cases hcr : si.created with
    | none =>
      cases hex : si.expires with
      | none => simp [verifySignature, hga, hao, hcr, hex]
      | some e => simp [verifySignature, hga, hao, hcr, hex, hexp e hex]
    | some c =>
      cases hex : si.expires with
      | none => simp [verifySignature, hga, hao, hcr, hex, hfresh c hcr, hfut c hcr]
      | some e =>
        simp [verifySignature, hga, hao, hcr, hex, hfresh c hcr, hfut c hcr, hexp e hex]
  | some allow =>
    cases hcr : si.created with
    | none =>
      cases hex : si.expires with
      | none => simp [verifySignature, hga, hao, hcr, hex, hallow allow hao]
      | some e => simp [verifySignature, hga, hao, hcr, hex, hallow allow hao, hexp e hex]
    | some c =>
      cases hex : si.expires with
      | none =>
        simp [verifySignature, hga, hao, hcr, hex, hallow allow hao, hfresh c hcr, hfut c hcr]
      | some e =>
        simp [verifySignature, hga, hao, hcr, hex, hallow allow hao, hfresh c hcr,
          hfut c hcr, hexp e hex]

/-- C3.  Verifier state machine: `verifySignature` is a total function
into `VerificationResult` whose checks run in the fixed order
algorithm-known, algorithm-allowed, created-freshness (age, then future
skew), explicit expiry, key resolution, cryptographic verification,
short-circuiting on the first failure with its code; a throwing resolver
yields `key_not_found`, a `false` verdict `invalid_signature`, a throwing
verifier `verification_failed`, and otherwise the success record echoes
`keyid`, `alg`, `components`, `created` from the signature input. -/
theorem verifier_state_machine {K : Type} (now : Nat)
    (getAlgo : String → Option (SignatureAlgorithm K)) (req : InboundRequest)
    (si : ParsedSignatureInput) (sig : ParsedSignature) (resolver : KeyResolver K)
    (opts : VerifyOptions) :
    (getAlgo si.alg = none →
      verifySignature now getAlgo req si sig resolver opts =
        mkErrorResult "unsupported_algorithm")
    ∧ (∀ allow, getAlgo si.alg ≠ none → opts.algorithms = some allow →
        si.alg ∉ allow →
      verifySignature now getAlgo req si sig resolver opts =
        mkErrorResult "algorithm_not_allowed")
    ∧ (∀ c, getAlgo si.alg ≠ none →
        (∀ allow, opts.algorithms = some allow → si.alg ∈ allow) →
        si.created = some c → (now : Int) - c > (opts.maxAge.getD 300 : Int) →
      verifySignature now getAlgo req si sig resolver opts =
        mkErrorResult "signature_expired")
    ∧ (∀ c, getAlgo si.alg ≠ none →
        (∀ allow, opts.algorithms = some allow → si.alg ∈ allow) →
        si.created = some c → ¬((now : Int) - c > (opts.maxAge.getD 300 : Int)) →
        (now : Int) - c < -60 →
      verifySignature now getAlgo req si sig resolver opts =
        mkErrorResult "signature_future")
    ∧ (∀ e, getAlgo si.alg ≠ none →
        (∀ allow, opts.algorithms = some allow → si.alg ∈ allow) →
        (∀ c, si.created = some c → ¬((now : Int) - c > (opts.maxAge.getD 300 : Int))) →
        (∀ c, si.created = some c → ¬((now : Int) - c < -60)) →
        si.expires = some e → now > e →
      verifySignature now getAlgo req si sig resolver opts =
        mkErrorResult "signature_expired")
    ∧ (∀ algo, getAlgo si.alg = some algo →
        (∀ allow, opts.algorithms = some allow → si.alg ∈ allow) →
        (∀ c, si.created = some c → ¬((now : Int) - c > (opts.maxAge.getD 300 : Int))) →
        (∀ c, si.created = some c → ¬((now : Int) - c < -60)) →
        (∀ e, si.expires = some e → ¬(now > e)) →
        ((resolver.resolve si.keyid si.alg = Except.error () →
          verifySignature now getAlgo req si sig resolver opts =
            mkErrorResult "key_not_found")
         ∧ (∀ pk, resolver.resolve si.keyid si.alg = Except.ok pk →
            (algo.verify pk sig.value (utf8Bytes (buildSignatureBase req si)) =
                Except.ok false →
              verifySignature now getAlgo req si sig resolver opts =
                mkErrorResult "invalid_signature")
            ∧ (algo.verify pk sig.value (utf8Bytes (buildSignatureBase req si)) =
                Except.error () →
              verifySignature now getAlgo req si sig resolver opts =
                mkErrorResult "verification_failed")
            ∧ (algo.verify pk sig.value (utf8Bytes (buildSignatureBase req si)) =
                Except.ok true →
              verifySignature now getAlgo req si sig resolver opts =
                { valid := true, keyId := some si.keyid, algorithm := some si.alg,
                  components := some si.components, created := si.created })))) := by
  refine ⟨?_, ?_, ?_, ?_, ?_, ?_⟩
  · intro h
    simp [verifySignature, h]
  · intro allow hne hao hcon
    obtain ⟨algo, hga⟩ := Option.ne_none_iff_exists'.mp hne
    simp [verifySignature, hga, hao, hcon]
  · intro c hne hallow hcr hgt
    obtain ⟨algo, hga⟩ := Option.ne_none_iff_exists'.mp hne
    cases hao : opts.algorithms with
    | none => simp [verifySignature, hga, hao, hcr, hgt]
    | some allow => simp [verifySignature, hga, hao, hcr, hgt, hallow allow hao]
  · intro c hne hallow hcr hle hlt
    obtain ⟨algo, hga⟩ := Option.ne_none_iff_exists'.mp hne
    cases hao : opts.algorithms with
    | none => simp [verifySignature, hga, hao, hcr, hle, hlt]
    | some allow => simp [verifySignature, hga, hao, hcr, hle, hlt, hallow allow hao]
  · intro e hne hallow hfresh hfut hex hgt
    obtain ⟨algo, hga⟩ := Option.ne_none_iff_exists'.mp hne
    cases hao : opts.algorithms with
    | none =>
      cases hcr : si.created with
      | none => simp [verifySignature, hga, hao, hcr, hex, hgt]
      | some c => simp [verifySignature, hga, hao, hcr, hex, hgt, hfresh c hcr, hfut c hcr]
    | some allow =>
      cases hcr : si.created with
      | none => simp [verifySignature, hga, hao, hcr, hex, hgt, hallow allow hao]
      | some c =>
        simp [verifySignature, hga, hao, hcr, hex, hgt, hallow allow hao,
          hfresh c hcr, hfut c hcr]
  · intro algo hga hallow hfresh hfut hexp
    have hpass := verify_checks_pass now getAlgo req si sig resolver opts algo hga
      hallow hfresh hfut hexp
    refine ⟨?_, ?_⟩
    · intro hres
      rw [hpass]
      simp [hres]
    · intro pk hres
      refine ⟨?_, ?_, ?_⟩ <;> intro hv <;> rw [hpass] <;> simp [hres, hv]

/-- Witness for C3: with a registry that knows no algorithm, the
concrete verification returns `unsupported_algorithm`. -/
theorem verifier_state_machine_witness :
    verifySignature (K := Unit) 0 (fun _ => none)
      ⟨"GET", "https", "example.com", "/", []⟩
      ⟨"sig1", ["@method"], "k1", "nope", none, none, none⟩
      ⟨"sig1", [1]⟩ ⟨fun _ _ => Except.ok ()⟩ ⟨none, none⟩ =
      mkErrorResult "unsupported_algorithm" :=
  (verifier_state_machine 0 (fun _ => none)
    ⟨"GET", "https", "example.com", "/", []⟩
    ⟨"sig1", ["@method"], "k1", "nope", none, none, none⟩
    ⟨"sig1", [1]⟩ ⟨fun _ _ => Except.ok ()⟩ ⟨none, none⟩).1 rfl

/-! ## C10: no coverage check inside the verifier -/

/-- C10.  The core verifier never returns `missing_components` or
`signature_required`: every result is either valid or carries one of the
seven codes `unsupported_algorithm`, `algorithm_not_allowed`,
`signature_expired`, `signature_future`, `key_not_found`,
`invalid_signature`, `verification_failed`; a signature input with an
empty component list is not rejected by `verifySignature` itself and can
verify as `valid: true`, while the component-coverage check lives in the
middleware (`middlewareMissingComponents`). -/
theorem verifier_error_code_closure :
    (∀ {K : Type} (now : Nat) (getAlgo : String → Option (SignatureAlgorithm K))
        (req : InboundRequest) (si : ParsedSignatureInput) (sig : ParsedSignature)
        (resolver : KeyResolver K) (opts : VerifyOptions),
      ((verifySignature now getAlgo req si sig resolver opts).valid = true ∧
        (verifySignature now getAlgo req si sig resolver opts).error = none) ∨
      (verifySignature now getAlgo req si sig resolver opts).error ∈
        [some "unsupported_algorithm", some "algorithm_not_allowed",
         some "signature_expired", some "signature_future", some "key_not_found",
         some "invalid_signature", some "verification_failed"])
    ∧ verifySignature (K := Unit) 500
        (fun _ => some ⟨"alg-x", fun _ _ _ => Except.ok true, fun _ _ => Except.ok []⟩)
        ⟨"GET", "https", "example.com", "/", []⟩
        ⟨"sig1", [], "k1", "alg-x", none, none, none⟩
        ⟨"sig1", [1]⟩ ⟨fun _ _ => Except.ok ()⟩ ⟨none, none⟩ =
        { valid := true, keyId := some "k1", algorithm := some "alg-x",
          components := some ([] : List String), created := none }
    ∧ middlewareMissingComponents ["@method", "@target-uri", "@authority"]
        ⟨"sig1", [], "k1", "alg-x", none, none, none⟩ =
        ["@method", "@target-uri", "@authority"] := by
  refine ⟨?_, by rfl, by rfl⟩
  intro K now getAlgo req si sig resolver opts
  simp only [verifySignature]
  split
  · right; simp [mkErrorResult]
  · split
    · right; simp [mkErrorResult]
    · split
      · right; simp [mkErrorResult]
      · split
        · right; simp [mkErrorResult]
        · split
          · right; simp [mkErrorResult]
          · split
            · right; simp [mkErrorResult]
            · split
              · right; simp [mkErrorResult]
              · right; simp [mkErrorResult]
              · left; simp

/-! ## C8: resolver memoization -/

/-- C8 (code bug).  At the failing input — two verification requests
against the same configured JWKS URL — the resolver acquisition that
`httpSig` actually performs (`createKeyResolver(jwksUrl)` inside the
per-request handler) constructs two distinct resolver/fetcher instances,
so no resolver is created "at most once per process and reused".  The
memoizing `getDefaultKeyResolver` (second conjunct) would have reused a
single instance, but the middleware never calls it. -/
theorem resolver_not_memoized_per_request :
    ((httpSigAcquireResolver "https://auth.example.com/jwks"
        (httpSigAcquireResolver "https://auth.example.com/jwks" {}).2).1 ≠
      (httpSigAcquireResolver "https://auth.example.com/jwks" ({} : ResolverState)).1
     ∧ (httpSigAcquireResolver "https://auth.example.com/jwks"
        (httpSigAcquireResolver "https://auth.example.com/jwks" {}).2).2.fetchersCreated = 2)
    ∧ ((getDefaultKeyResolverOp "https://auth.example.com/jwks"
        (getDefaultKeyResolverOp "https://auth.example.com/jwks" {}).2).1 =
      (getDefaultKeyResolverOp "https://auth.example.com/jwks" ({} : ResolverState)).1
     ∧ (getDefaultKeyResolverOp "https://auth.example.com/jwks"
        (getDefaultKeyResolverOp "https://auth.example.com/jwks" {}).2).2.fetchersCreated = 1) := by
  refine ⟨⟨by decide, rfl⟩, rfl, rfl⟩

/-! ## C6: parser totality and correctness -/

theorem findQuotedParam_ne_nil (pat : List Char) (cs : List Char) (v : List Char)
    (h : findQuotedParam pat cs = some v) : v ≠ [] := by
  induction cs with
  | nil => simp [findQuotedParam] at h
  | cons c t ih =>
    rw [findQuotedParam] at h
    by_cases hp : pat.isPrefixOf (c :: t)
    · simp only [hp, if_true] at h
      by_cases hcond : !(((c :: t).drop pat.length).takeWhile (fun x => x ≠ '"')).isEmpty &&
          ((((c :: t).drop pat.length).drop
            (((c :: t).drop pat.length).takeWhile (fun x => x ≠ '"')).length).head? = some '"')
      · rw [if_pos hcond] at h
        cases h
        intro hnil
        simp only [hnil] at hcond
        simp at hcond
      · rw [if_neg hcond] at h
        exact ih h
    · simp only [hp, if_false] at h
      exact ih h

theorem parseSingle_mandatory (input : List Char) (e : ParsedSignatureInput)
    (h : parseSingleSignatureInput input = some e) : e.keyid ≠ "" ∧ e.alg ≠ "" := by
  rw [parseSingleSignatureInput.eq_def] at h
  simp only [] at h
  split at h
  all_goals try exact Option.noConfusion h
  split at h
  all_goals try exact Option.noConfusion h
  split at h
  all_goals try exact Option.noConfusion h
  split at h
  all_goals try exact Option.noConfusion h
  split at h
  all_goals try exact Option.noConfusion h
  rename_i k a hk hg
  injection h with h2
  subst h2
  refine ⟨fun hs => ?_, fun hs => ?_⟩
  · exact findQuotedParam_ne_nil _ _ _ hk (congrArg String.data hs)
  · exact findQuotedParam_ne_nil _ _ _ hg (congrArg String.data hs)

set_option maxRecDepth 100000 in
/-- C6.  Parser totality and correctness: `parseSignatureInput` is a
total function (it never raises); every entry it returns carries a
nonempty `keyid` and `alg` (segments missing either, and segments with
no `label=(...)` match, are dropped); malformed input yields the empty
list; and the concrete header of spec scenario 1 parses to exactly the
expected single entry. -/
theorem parse_signature_input_correct :
    (∀ header : String, ∀ e ∈ parseSignatureInput header, e.keyid ≠ "" ∧ e.alg ≠ "")
    ∧ parseSignatureInput "garbage" = []
    ∧ parseSignatureInput "sig1=(\"\" no-label ;keyid=\"k\"), bad" = []
    ∧ parseSignatureInput
        "sig1=(\"@method\" \"@target-uri\" \"content-digest\");keyid=\"client-key-1\";alg=\"rsa-pss-sha512\";created=1704067200"
        = [{ label := "sig1",
             components := ["@method", "@target-uri", "content-digest"],
             keyid := "client-key-1",
             alg := "rsa-pss-sha512",
             created := some 1704067200,
             expires := none,
             nonce := none }] := by
  refine ⟨?_, by decide, by decide, by decide⟩
  intro header e he
  simp only [parseSignatureInput, List.mem_filterMap] at he
  obtain ⟨seg, _, hp⟩ := he
  exact parseSingle_mandatory _ _ hp

/-! ## C9: Content-Digest condition of the signer -/

theorem jsGet_cons (p : String × String) (t : List (String × String)) (k : String) :
    jsGet (p :: t) k = if p.1 = k then some p.2 else jsGet t k := by
  by_cases hp : p.1 = k <;> simp [jsGet, List.find?_cons, hp]

theorem jsGet_map_overwrite (l : List (String × String)) (k v k' : String) (h : k' ≠ k) :
    jsGet (l.map (fun p => if p.1 = k then (k, v) else p)) k' = jsGet l k' := by
  induction l with
  | nil => rfl
  | cons p t ih =>
    by_cases hp : p.1 = k
    · simp [jsGet_cons, hp, if_pos hp, Ne.symm h, ih]
    · simp only [List.map_cons, if_neg hp, jsGet_cons, ih]

theorem jsGet_append_single (l : List (String × String)) (k v k' : String) (h : k' ≠ k) :
    jsGet (l ++ [(k, v)]) k' = jsGet l k' := by
  induction l with
  | nil => simp [jsGet_cons, Ne.symm h, jsGet]
  | cons p t ih => simp only [List.cons_append, jsGet_cons, ih]

theorem jsGet_jsSet_same (l : List (String × String)) (k v : String) :
    jsGet (jsSet l k v) k = some v := by
  simp only [jsSet]
  split
  · rename_i hex
    induction l with
    | nil => simp at hex
    | cons p t ih =>
      by_cases hp : p.1 = k
      · simp [jsGet_cons, if_pos hp]
      · simp only [List.find?_cons, decide_eq_true_eq, hp, decide_False] at hex
        simp only [List.map_cons, if_neg hp, jsGet_cons, hp, if_false]
        exact ih (by simpa using hex)
  · rename_i hex
    induction l with
    | nil => simp [jsGet_cons, jsGet]
    | cons p t ih =>
      by_cases hp : p.1 = k
      · exact absurd (by simp [List.find?_cons, hp]) hex
      · simp only [List.cons_append, jsGet_cons, hp, if_false]
        exact ih (by simp only [List.find?_cons, decide_eq_true_eq, hp,
          decide_False] at hex ⊢; simpa using hex)

theorem jsGet_jsSet_other (l : List (String × String)) (k v k' : String)
    (h : k' ≠ k) : jsGet (jsSet l k v) k' = jsGet l k' := by
  simp only [jsSet]
  split
  · exact jsGet_map_overwrite l k v k' h
  · exact jsGet_append_single l k v k' h

theorem jsGet_eq_none (l : List (String × String)) (k : String)
    (h : ∀ p ∈ l, p.1 ≠ k) : jsGet l k = none := by
  induction l with
  | nil => rfl
  | cons p t ih =>
    rw [jsGet_cons, if_neg (h p (by simp))]
    exact ih (fun q hq => h q (by simp [hq]))

/-- C9.  Content-Digest condition: when the caller-supplied headers carry
no Content-Digest entry (under any capitalization), the header map
returned by `sign` contains `Content-Digest` exactly when the bound
component list contains `content-digest` and the body is a nonempty
string, and then its value is `sha-256=:<base64 of SHA-256 of body>:`;
with an absent or empty body no digest header is added, the
`content-digest` component resolves to no value (its line is silently
omitted from the outgoing signature base), and signing still succeeds. -/
theorem content_digest_condition {K : Type} (algo : SignatureAlgorithm K) (key : K)
    (keyId algorithm : String) (components : List String)
    (sha256 : String → List Nat) (now : Nat) (r : SignRequestData)
    (hnocd : ∀ p ∈ r.headers, strToLower p.1 ≠ "content-digest")
    (signed : List (String × String))
    (hs : signRequest algo key keyId algorithm components sha256 now r = some signed) :
    (jsGet signed "Content-Digest" =
      if (match r.body with
          | some body => body ≠ "" && components.contains "content-digest"
          | none => false) then
        some (computeContentDigest sha256 (r.body.getD ""))
      else none)
    ∧ ((match r.body with
        | some body => body = ""
        | none => True) →
      ∀ url, urlParse r.url = some url →
        outboundComponentValue r r.headers url "content-digest" = none) := by
  have hexact : ∀ p ∈ r.headers, p.1 ≠ "Content-Digest" := by
    intro p hp he
    exact hnocd p hp (by rw [he]; decide)
  have hlower : ∀ p ∈ r.headers, p.1 ≠ "content-digest" := by
    intro p hp he
    exact hnocd p hp (by rw [he]; decide)
  constructor
  · rw [signRequest] at hs
    simp only [] at hs
    split at hs
    · exact Option.noConfusion hs
    · split at hs
      · exact Option.noConfusion hs
      · injection hs with hsig
        subst hsig
        rw [jsGet_jsSet_other _ _ _ _ (by decide), jsGet_jsSet_other _ _ _ _ (by decide)]
        split
        · exact jsGet_jsSet_same _ _ _
        · exact jsGet_eq_none _ _ hexact
  · intro hbody url hurl
    show (jsGet r.headers "content-digest").orElse _ = none
    rw [jsGet_eq_none _ _ hlower]
    show (jsGet r.headers (strToLower "content-digest")).orElse _ = none
    rw [show strToLower "content-digest" = "content-digest" from by decide,
      jsGet_eq_none _ _ hlower]
    show jsGet r.headers (capitalizeHeader "content-digest") = none
    rw [show capitalizeHeader "content-digest" = "Content-Digest" from by decide,
      jsGet_eq_none _ _ hexact]

/-- Witness for C9 at spec scenario 3: signing with
`components = ["@method", "content-digest"]` and body
`{"test":"data"}` produces a `Content-Digest` header of the form
`sha-256=:…:`. -/
theorem content_digest_condition_witness :
    jsGet [("content-type", "application/json"),
           ("Content-Digest", "sha-256=:AQID:"),
           ("Signature-Input",
            "sig1=(\"@method\" \"content-digest\");keyid=\"client-key-1\";alg=\"rsa-pss-sha512\";created=1704067200"),
           ("Signature", "sig1=:Bw==:")] "Content-Digest" = some "sha-256=:AQID:" := by
  have h := (content_digest_condition (K := Unit)
      ⟨"rsa-pss-sha512", fun _ _ _ => Except.ok true, fun _ _ => Except.ok [7]⟩ ()
      "client-key-1" "rsa-pss-sha512" ["@method", "content-digest"]
      (fun _ => [1, 2, 3]) 1704067200
      ⟨"POST", "https://example.com/api/data",
        [("content-type", "application/json")], some "\x7b\"test\":\"data\"\x7d"⟩
      (by decide)
      [("content-type", "application/json"),
       ("Content-Digest", "sha-256=:AQID:"),
       ("Signature-Input",
        "sig1=(\"@method\" \"content-digest\");keyid=\"client-key-1\";alg=\"rsa-pss-sha512\";created=1704067200"),
       ("Signature", "sig1=:Bw==:")]
      (by decide)).1
  exact h.trans (by decide)

/-! ## C2: builder symmetry — character-case and split/join lemmas -/

theorem char_toNat_ofNat {n : Nat} (h : n.isValidChar) : (Char.ofNat n).toNat = n := by
  rw [Char.ofNat, dif_pos h]
  rfl

theorem toLower_eq_self {c : Char} (h : ¬(65 ≤ c.toNat ∧ c.toNat ≤ 90)) :
    c.toLower = c := by
  show (if 65 ≤ c.toNat ∧ c.toNat ≤ 90 then Char.ofNat (c.toNat + 32) else c) = c
  exact if_neg h

theorem toNat_toLower_of_upper {c : Char} (h : 65 ≤ c.toNat ∧ c.toNat ≤ 90) :
    c.toLower.toNat = c.toNat + 32 := by
  have h1 : c.toLower = Char.ofNat (c.toNat + 32) := by
    show (if 65 ≤ c.toNat ∧ c.toNat ≤ 90 then Char.ofNat (c.toNat + 32) else c) = _
    exact if_pos h
  rw [h1, char_toNat_ofNat (Or.inl (by omega))]

theorem toUpper_eq_self {c : Char} (h : ¬(97 ≤ c.toNat ∧ c.toNat ≤ 122)) :
    c.toUpper = c := by
  show (if 97 ≤ c.toNat ∧ c.toNat ≤ 122 then Char.ofNat (c.toNat - 32) else c) = c
  exact if_neg h

theorem toNat_toUpper_of_lower {c : Char} (h : 97 ≤ c.toNat ∧ c.toNat ≤ 122) :
    c.toUpper.toNat = c.toNat - 32 := by
  have h1 : c.toUpper = Char.ofNat (c.toNat - 32) := by
    show (if 97 ≤ c.toNat ∧ c.toNat ≤ 122 then Char.ofNat (c.toNat - 32) else c) = _
    exact if_pos h
  rw [h1, char_toNat_ofNat (Or.inl (by omega))]

theorem toLower_eq_iff_lt65 {c d : Char} (hd : d.toNat < 65) :
    c.toLower = d ↔ c = d := by
  constructor
  · intro h
    by_cases hu : 65 ≤ c.toNat ∧ c.toNat ≤ 90
    · have h2 := toNat_toLower_of_upper hu
      rw [h] at h2
      omega
    · rwa [toLower_eq_self hu] at h
  · intro h
    subst h
    exact toLower_eq_self (by omega)

theorem toUpper_eq_iff_lt65 {c d : Char} (hd : d.toNat < 65) :
    c.toUpper = d ↔ c = d := by
  constructor
  · intro h
    by_cases hl : 97 ≤ c.toNat ∧ c.toNat ≤ 122
    · have h2 := toNat_toUpper_of_lower hl
      rw [h] at h2
      omega
    · rwa [toUpper_eq_self hl] at h
  · intro h
    subst h
    exact toUpper_eq_self (by omega)

theorem char_cap_cases {c : Char} (h : c.toLower = c) :
    c.toUpper = c ∨ (c.toUpper).toLower ≠ c.toUpper := by
  by_cases hl : 97 ≤ c.toNat ∧ c.toNat ≤ 122
  · right
    intro heq
    have h1 := toNat_toUpper_of_lower hl
    have h2 := toNat_toLower_of_upper (c := c.toUpper) (by omega)
    rw [heq] at h2
    omega
  · left
    exact toUpper_eq_self hl

theorem splitDash_ne_nil (cs : List Char) : splitDash cs ≠ [] := by
  cases cs with
  | nil => simp [splitDash]
  | cons c t =>
    rw [splitDash]
    by_cases hc : c = '-'
    · simp [hc]
    · simp only [if_neg hc]
      cases splitDash t <;> simp

theorem splitDash_map_toLower (cs : List Char) :
    splitDash (cs.map Char.toLower) = (splitDash cs).map (List.map Char.toLower) := by
  induction cs with
  | nil => rfl
  | cons c t ih =>
    simp only [List.map_cons, splitDash]
    by_cases hc : c = '-'
    · rw [if_pos ((toLower_eq_iff_lt65 (by decide)).mpr hc), if_pos hc, ih]
      rfl
    · rw [if_neg (fun h => hc ((toLower_eq_iff_lt65 (by decide)).mp h)), if_neg hc, ih]
      cases h : splitDash t with
      | nil => exact absurd h (splitDash_ne_nil t)
      | cons p ps => simp

theorem joinDash_splitDash (cs : List Char) : joinDash (splitDash cs) = cs := by
  induction cs with
  | nil => rfl
  | cons c t ih =>
    rw [splitDash]
    by_cases hc : c = '-'
    · rw [if_pos hc]
      cases h : splitDash t with
      | nil => exact absurd h (splitDash_ne_nil t)
      | cons p ps =>
        rw [h] at ih
        rw [show joinDash ([] :: p :: ps) = [] ++ '-' :: joinDash (p :: ps) from rfl]
        simp [hc, ih]
    · rw [if_neg hc]
      cases h : splitDash t with
      | nil => exact absurd h (splitDash_ne_nil t)
      | cons p ps =>
        rw [h] at ih
        cases ps with
        | nil => simpa [joinDash] using ih
        | cons q qs =>
          rw [show joinDash ((c :: p) :: q :: qs) = (c :: p) ++ '-' :: joinDash (q :: qs)
            from rfl]
          rw [show joinDash (p :: q :: qs) = p ++ '-' :: joinDash (q :: qs) from rfl] at ih
          simpa using ih

theorem joinDash_stable_parts (qs : List (List Char))
    (h : (joinDash qs).map Char.toLower = joinDash qs) :
    ∀ p ∈ qs, p.map Char.toLower = p := by
  induction qs with
  | nil => simp
  | cons p ps ih =>
    cases ps with
    | nil =>
      intro q hq
      simp only [List.mem_singleton] at hq
      subst hq
      simpa [joinDash] using h
    | cons r rs =>
      rw [show joinDash (p :: r :: rs) = p ++ '-' :: joinDash (r :: rs) from rfl] at h
      rw [List.map_append, List.map_cons] at h
      rw [show Char.toLower '-' = '-' from by decide] at h
      have hlen : (p.map Char.toLower).length = p.length := by simp
      obtain ⟨h1, h2⟩ := List.append_inj h hlen
      intro q hq
      rcases List.mem_cons.mp hq with hq | hq
      · subst hq; exact h1
      · exact ih (by injection h2) q hq

theorem map_eq_self_forall {α : Type} (f : α → α) (l : List α) (h : l.map f = l) :
    ∀ x ∈ l, f x = x := by
  induction l with
  | nil => simp
  | cons a t ih =>
    simp only [List.map_cons, List.cons.injEq] at h
    intro x hx
    rcases List.mem_cons.mp hx with hx | hx
    · subst hx; exact h.1
    · exact ih h.2 x hx

theorem map_self_of_forall {α : Type} (f : α → α) (l : List α)
    (h : ∀ x ∈ l, f x = x) : l.map f = l := by
  induction l with
  | nil => rfl
  | cons a t ih =>
    rw [List.map_cons, h a (by simp), ih (fun x hx => h x (by simp [hx]))]

theorem capPart_of_stable (p : List Char) (h : p.map Char.toLower = p) :
    capPart p = p ∨ (capPart p).map Char.toLower ≠ capPart p := by
  cases p with
  | nil => left; rfl
  | cons c t =>
    simp only [List.map_cons, List.cons.injEq] at h
    rcases char_cap_cases h.1 with hc | hc
    · left
      simp [capPart, hc, h.2]
    · right
      simp only [capPart, h.2, List.map_cons]
      intro he
      exact hc (List.cons.inj he).1

theorem capitalizeHeader_of_stable (c : String) (hc : strToLower c = c)
    (hcap : strToLower (capitalizeHeader c) = capitalizeHeader c) :
    capitalizeHeader c = c := by
  have hdata : c.data.map Char.toLower = c.data := congrArg String.data hc
  have hparts : ∀ p ∈ splitDash c.data, p.map Char.toLower = p := by
    have h1 : splitDash (c.data.map Char.toLower) = splitDash c.data := by rw [hdata]
    rw [splitDash_map_toLower] at h1
    exact map_eq_self_forall _ _ h1
  have hcapdata : (joinDash ((splitDash c.data).map capPart)).map Char.toLower =
      joinDash ((splitDash c.data).map capPart) := congrArg String.data hcap
  have hstable := joinDash_stable_parts _ hcapdata
  have hall : ∀ p ∈ splitDash c.data, capPart p = p := by
    intro p hp
    rcases capPart_of_stable p (hparts p hp) with h | h
    · exact h
    · exact absurd (hstable (capPart p) (List.mem_map_of_mem _ hp)) h
  show String.mk (joinDash ((splitDash c.data).map capPart)) = c
  rw [map_self_of_forall _ _ hall, joinDash_splitDash]

theorem jsGetH_cons (p : String × HeaderValue) (t : List (String × HeaderValue))
    (k : String) :
    jsGetH (p :: t) k = if p.1 = k then some p.2 else jsGetH t k := by
  by_cases hp : p.1 = k <;> simp [jsGetH, List.find?_cons, hp]

theorem jsGetH_map_str (headers : List (String × String)) (k : String) :
    jsGetH (headers.map (fun p => (p.1, HeaderValue.str p.2))) k =
      (jsGet headers k).map HeaderValue.str := by
  induction headers with
  | nil => rfl
  | cons p t ih =>
    by_cases hp : p.1 = k <;> simp [jsGetH_cons, jsGet_cons, hp, ih]

theorem jsGet_some_key (l : List (String × String)) (k v : String)
    (h : jsGet l k = some v) : ∃ p ∈ l, p.1 = k := by
  induction l with
  | nil => exact Option.noConfusion h
  | cons p t ih =>
    rw [jsGet_cons] at h
    by_cases hp : p.1 = k
    · exact ⟨p, by simp, hp⟩
    · rw [if_neg hp] at h
      obtain ⟨q, hq, hk⟩ := ih h
      exact ⟨q, by simp [hq], hk⟩

theorem outbound_header_lookup (headers : List (String × String)) (c : String)
    (hkeys : ∀ p ∈ headers, strToLower p.1 = p.1) (hc : strToLower c = c) :
    (jsGet headers c).orElse (fun _ =>
      (jsGet headers (strToLower c)).orElse (fun _ =>
        jsGet headers (capitalizeHeader c))) = jsGet headers c := by
  rw [hc]
  cases h : jsGet headers c with
  | some v => rfl
  | none =>
    cases hcap : jsGet headers (capitalizeHeader c) with
    | none => simp [Option.orElse, h, hcap]
    | some v =>
      obtain ⟨p, hpmem, hpk⟩ := jsGet_some_key _ _ _ hcap
      have hst : strToLower (capitalizeHeader c) = capitalizeHeader c := by
        rw [← hpk]
        exact hkeys p hpmem
      rw [capitalizeHeader_of_stable c hc hst, h] at hcap
      exact Option.noConfusion hcap

theorem takeWhile_append_drop {α : Type} (p : α → Bool) (l : List α) :
    l.takeWhile p ++ l.drop (l.takeWhile p).length = l := by
  induction l with
  | nil => rfl
  | cons a t ih =>
    by_cases ha : p a <;> simp [List.takeWhile_cons, ha, ih]

theorem urlParse_props (u : String) (parts : URLParts) (h : urlParse u = some parts) :
    u.data = parts.scheme.data ++ ':' :: '/' :: '/' ::
        (parts.host.data ++ parts.pathname.data ++ parts.search.data)
    ∧ (∀ c ∈ parts.pathname.data, c ≠ '?')
    ∧ (parts.search.data = [] ∨ ∃ q, q ≠ [] ∧ parts.search.data = '?' :: q) := by
  rw [urlParse] at h
  simp only [] at h
  split at h
  case h_2 => exact Option.noConfusion h
  case h_1 _ r2 heq1 =>
    split at h
    case isTrue => exact Option.noConfusion h
    case isFalse hsch =>
      split at h
      case isTrue => exact Option.noConfusion h
      case isFalse hhost =>
        split at h
        case h_2 => exact Option.noConfusion h
        case h_1 _ r3 heq2 =>
          have hu := (takeWhile_append_drop (fun c => c ≠ ':') u.data).symm
          rw [heq1] at hu
          have hr2 := (takeWhile_append_drop (fun c => c ≠ '/' && c ≠ '?') r2).symm
          rw [heq2] at hr2
          have hr3 := (takeWhile_append_drop (fun c => c ≠ '?') r3).symm
          have hpath : ∀ c ∈ '/' :: r3.takeWhile (fun c => c ≠ '?'), c ≠ '?' := by
            intro c hc
            rcases List.mem_cons.mp hc with hc | hc
            · subst hc; decide
            · simpa using List.mem_takeWhile_imp hc
          split at h
          case h_1 heq3 =>
            rw [heq3, List.append_nil] at hr3
            injection h with h
            subst h
            refine ⟨?_, hpath, Or.inl rfl⟩
            show u.data = (u.data.takeWhile (fun c => c ≠ ':')) ++ ':' :: '/' :: '/' ::
              ((r2.takeWhile (fun c => c ≠ '/' && c ≠ '?')) ++
                ('/' :: r3.takeWhile (fun c => c ≠ '?')) ++ [])
            conv_lhs => rw [hu]
            conv_lhs => rw [hr2]
            conv_lhs => rw [hr3]
            simp
          case h_2 => exact Option.noConfusion h
          case h_3 _ q hq heq3 =>
            rw [heq3] at hr3
            injection h with h
            subst h
            refine ⟨?_, hpath, Or.inr ⟨q, ?_, rfl⟩⟩
            · show u.data = (u.data.takeWhile (fun c => c ≠ ':')) ++ ':' :: '/' :: '/' ::
                ((r2.takeWhile (fun c => c ≠ '/' && c ≠ '?')) ++
                  ('/' :: r3.takeWhile (fun c => c ≠ '?')) ++ '?' :: q)
              conv_lhs => rw [hu]
              conv_lhs => rw [hr2]
              conv_lhs => rw [hr3]
              simp
            · intro hq0
              subst hq0
              exact hq rfl
          case h_4 => exact Option.noConfusion h

theorem filterMap_congr_mem {α β : Type} (f g : α → Option β) (l : List α)
    (h : ∀ a ∈ l, f a = g a) : l.filterMap f = l.filterMap g := by
  induction l with
  | nil => rfl
  | cons a t ih =>
    rw [List.filterMap_cons, List.filterMap_cons, h a (by simp),
      ih (fun x hx => h x (by simp [hx]))]

theorem jsStartsWith_at_iff (s : String) :
    jsStartsWith s "@" = true ↔ ∃ t, s.data = '@' :: t := by
  constructor
  · intro h
    cases hd : s.data with
    | nil => rw [jsStartsWith, hd] at h; exact Bool.noConfusion h
    | cons c t =>
      rw [jsStartsWith, hd] at h
      simp only [show ("@" : String).data = ['@'] from rfl, List.isPrefixOf] at h
      obtain ⟨hc, _⟩ := Bool.and_eq_true_iff.mp h
      have hc' : c = '@' := (beq_iff_eq.mp hc).symm
      exact ⟨t, by rw [hc']⟩
  · intro ⟨t, ht⟩
    rw [jsStartsWith, ht]
    simp [show ("@" : String).data = ['@'] from rfl, List.isPrefixOf]

theorem strToLower_at {s : String} {t : List Char} (h : s.data = '@' :: t) :
    ∃ t', (strToLower s).data = '@' :: t' := by
  refine ⟨t.map Char.toLower, ?_⟩
  show (s.data.map Char.toLower) = _
  rw [h, List.map_cons, show Char.toLower '@' = '@' from by decide]

theorem capitalizeHeader_at {s : String} {t : List Char} (h : s.data = '@' :: t) :
    ∃ t', (capitalizeHeader s).data = '@' :: t' := by
  show ∃ t', joinDash ((splitDash s.data).map capPart) = '@' :: t'
  rw [h, splitDash]
  rw [if_neg (by decide)]
  cases hsp : splitDash t with
  | nil => exact absurd hsp (splitDash_ne_nil t)
  | cons p ps =>
    simp only [List.map_cons]
    have hcap : capPart ('@' :: p) = '@' :: p.map Char.toLower := by
      rw [capPart, show Char.toUpper '@' = '@' from by decide]
    rw [hcap]
    cases hm : ps.map capPart with
    | nil => exact ⟨p.map Char.toLower, rfl⟩
    | cons q qs => exact ⟨p.map Char.toLower ++ '-' :: joinDash (q :: qs), rfl⟩

theorem jsGet_none_of_at (headers : List (String × String)) (k : String)
    (hkeys : ∀ p ∈ headers, jsStartsWith p.1 "@" = false)
    (hk : ∃ t, k.data = '@' :: t) : jsGet headers k = none := by
  apply jsGet_eq_none
  intro p hp he
  have := hkeys p hp
  rw [he, (jsStartsWith_at_iff k).mpr hk] at this
  exact Bool.noConfusion this

theorem component_value_eq (req : InboundRequest) (r : SignRequestData)
    (headers : List (String × String)) (parts : URLParts)
    (heq : InboundEquivalent req r headers parts) (c : String)
    (hc : jsStartsWith c "@" = false → strToLower c = c) :
    outboundComponentValue r headers parts c = extractComponent req c := by
  obtain ⟨hurl, hm, hp, hh, hu, hhdrs, hkeys⟩ := heq
  obtain ⟨hrecon, hpathq, hsearch⟩ := urlParse_props _ _ hurl
  have hudata : req.url.data = parts.pathname.data ++ parts.search.data := by
    rw [hu]
    exact congrArg String.data (String.ext (String.data_append _ _))
  rw [outboundComponentValue.eq_def]
  split
  · show some r.method = extractComponent req "@method"
    rw [show extractComponent req "@method" = some req.method from rfl, hm]
  · show some r.url = extractComponent req "@target-uri"
    rw [show extractComponent req "@target-uri" =
      some (req.protocol ++ "://" ++ req.hostname ++ req.url) from rfl]
    refine congrArg some (String.ext ?_)
    rw [hrecon]
    rw [hp, hh, hu]
    simp [String.data_append]
  · show some parts.host = extractComponent req "@authority"
    rw [show extractComponent req "@authority" = some req.hostname from rfl, hh]
  · show some parts.scheme = extractComponent req "@scheme"
    rw [show extractComponent req "@scheme" = some req.protocol from rfl, hp]
  · show some parts.pathname = extractComponent req "@path"
    rw [show extractComponent req "@path" =
      some (if (req.url.data.takeWhile (fun x => x ≠ '?')).length < req.url.data.length
            then String.mk (req.url.data.take
              (req.url.data.takeWhile (fun x => x ≠ '?')).length)
            else req.url) from rfl]
    rcases hsearch with hs | ⟨q, hq, hs⟩
    · have hall : req.url.data.takeWhile (fun x => x ≠ '?') = req.url.data := by
        apply takeWhile_all
        intro x hx
        rw [hudata, hs, List.append_nil] at hx
        simpa using hpathq x hx
      rw [hall, if_neg (Nat.lt_irrefl _)]
      refine congrArg some (String.ext ?_).symm
      rw [hudata, hs, List.append_nil]
    · have htw : req.url.data.takeWhile (fun x => x ≠ '?') = parts.pathname.data := by
        rw [hudata, hs]
        exact takeWhile_append_stop _ _ _ _
          (fun x hx => by simpa using hpathq x hx) (by simp)
      have hlt : (req.url.data.takeWhile (fun x => x ≠ '?')).length < req.url.data.length := by
        rw [htw, hudata, hs]
        simp
      rw [if_pos hlt, htw]
      refine congrArg some (String.ext ?_).symm
      rw [hudata, hs, List.take_left]
  · show some (if parts.search = "" then "?" else parts.search) =
      extractComponent req "@query"
    rw [show extractComponent req "@query" =
      some (if (req.url.data.takeWhile (fun x => x ≠ '?')).length < req.url.data.length
            then String.mk (req.url.data.drop
              (req.url.data.takeWhile (fun x => x ≠ '?')).length)
            else "?") from rfl]
    rcases hsearch with hs | ⟨q, hq, hs⟩
    · have hsearch0 : parts.search = "" := String.ext hs
      have hall : req.url.data.takeWhile (fun x => x ≠ '?') = req.url.data := by
        apply takeWhile_all
        intro x hx
        rw [hudata, hs, List.append_nil] at hx
        simpa using hpathq x hx
      rw [hall, if_neg (Nat.lt_irrefl _), hsearch0]
      simp
    · have hsearchne : parts.search ≠ "" := by
        intro h0
        rw [h0] at hs
        exact List.noConfusion hs
      have htw : req.url.data.takeWhile (fun x => x ≠ '?') = parts.pathname.data := by
        rw [hudata, hs]
        exact takeWhile_append_stop _ _ _ _
          (fun x hx => by simpa using hpathq x hx) (by simp)
      have hlt : (req.url.data.takeWhile (fun x => x ≠ '?')).length < req.url.data.length := by
        rw [htw, hudata, hs]
        simp
      rw [if_pos hlt, htw, if_neg hsearchne]
      refine congrArg some (String.ext ?_).symm
      rw [hudata, hs, List.drop_left, ← hs]
  · rename_i h1 h2 h3 h4 h5 h6
    by_cases hat : jsStartsWith c "@" = true
    · obtain ⟨t, ht⟩ := (jsStartsWith_at_iff c).mp hat
      have hkat : ∀ p ∈ headers, jsStartsWith p.1 "@" = false := fun p hp => (hkeys p hp).2
      rw [jsGet_none_of_at headers c hkat ⟨t, ht⟩,
        jsGet_none_of_at headers (strToLower c) hkat (strToLower_at ht),
        jsGet_none_of_at headers (capitalizeHeader c) hkat (capitalizeHeader_at ht)]
      rw [extractComponent, if_pos hat]
      rw [extractDerivedComponent.eq_def]
      split <;> simp_all [Option.orElse]
    · have hat' : jsStartsWith c "@" = false := by
        cases hb : jsStartsWith c "@"
        · rfl
        · exact absurd hb hat
      have hcl := hc hat'
      rw [outbound_header_lookup headers c (fun p hp => (hkeys p hp).1) hcl]
      rw [extractComponent, if_neg (by rw [hat']; exact Bool.noConfusion)]
      rw [hhdrs, jsGetH_map_str, hcl]
      cases jsGet headers c with
      | none => rfl
      | some v => rfl

/-- C2.  Builder symmetry: for every declared component list and set of
signature parameters (key id, algorithm, created timestamp — the
parameters the outbound path emits), the signature base built on the
inbound path from a request and the one built on the outbound path from
the equivalent request description (same method, target URL, headers,
with headers delivered lowercase as Node does and lowercase non-derived
component identifiers as RFC 9421 prescribes) are byte-identical. -/
theorem signature_base_builder_symmetry (req : InboundRequest) (r : SignRequestData)
    (headers : List (String × String)) (parts : URLParts)
    (label keyId alg : String) (components : List String) (created : Nat)
    (heq : InboundEquivalent req r headers parts)
    (hcomps : ∀ c ∈ components, jsStartsWith c "@" = false → strToLower c = c) :
    buildOutgoingSignatureBase r headers components keyId alg created =
      some (buildSignatureBase req
        { label := label, components := components, keyid := keyId, alg := alg,
          created := some created, expires := none, nonce := none }) := by
  have hurl := heq.1
  rw [buildOutgoingSignatureBase.eq_def]
  simp only [hurl]
  refine congrArg some ?_
  rw [buildSignatureBase]
  simp only []
  rw [foldl_lines (fun c => outboundComponentValue r headers parts c),
    foldl_lines (fun c => extractComponent req c)]
  rw [filterMap_congr_mem _ _ _ (fun c hcm => by
    rw [component_value_eq req r headers parts heq c (hcomps c hcm)])]
  rw [buildSignatureParams_eq]
  refine congrArg (String.intercalate "\n") ?_
  refine congrArg (fun pl => _ ++ [pl]) ?_
  apply String.ext
  simp [String.data_append]

/-- Witness for C2 at a concrete pair of equivalent requests covering
every derived component, an ordinary header, a missing header, and an
unknown derived component. -/
theorem signature_base_builder_symmetry_witness :
    buildOutgoingSignatureBase
      ⟨"GET", "https://example.com/api/data?x=1",
        [("content-type", "application/json")], none⟩
      [("content-type", "application/json")]
      ["@method", "@target-uri", "@authority", "@scheme", "@path", "@query",
       "content-type", "missing", "@unknown"]
      "client-key-1" "rsa-pss-sha512" 1704067200 =
    some (buildSignatureBase
      ⟨"GET", "https", "example.com", "/api/data?x=1",
        [("content-type", HeaderValue.str "application/json")]⟩
      { label := "sig1"
        components := ["@method", "@target-uri", "@authority", "@scheme", "@path",
          "@query", "content-type", "missing", "@unknown"]
        keyid := "client-key-1"
        alg := "rsa-pss-sha512"
        created := some 1704067200
        expires := none
        nonce := none }) := by
  apply signature_base_builder_symmetry
    ⟨"GET", "https", "example.com", "/api/data?x=1",
      [("content-type", HeaderValue.str "application/json")]⟩
    ⟨"GET", "https://example.com/api/data?x=1",
      [("content-type", "application/json")], none⟩
    [("content-type", "application/json")]
    ⟨"https", "example.com", "/api/data", "?x=1"⟩
  · exact ⟨by decide, rfl, rfl, rfl, rfl, rfl, by decide⟩
  · decide

/-! ## C1: sign/verify round trip — base64 and decimal lemmas -/

theorem b64Value_b64Char : ∀ n, n < 64 → b64Value (b64Char n) = some n := by decide

theorem b64Char_ne_eq : ∀ n, n < 64 → b64Char n ≠ '=' := by decide

theorem isB64Char_b64Char : ∀ n, n < 64 → isB64Char (b64Char n) = true := by decide

theorem base64_roundtrip_aux : ∀ (k : Nat) (bytes : List Nat), bytes.length ≤ k →
    (∀ b ∈ bytes, b < 256) → base64Decode (base64Encode bytes) = some bytes := by
  intro k
  induction k with
  | zero =>
    intro bytes hlen _
    have : bytes = [] := List.length_eq_zero.mp (Nat.le_zero.mp hlen)
    subst this
    rfl
  | succ k ih =>
    intro bytes hlen hb
    rcases bytes with _ | ⟨a, _ | ⟨b, _ | ⟨c, rest⟩⟩⟩
    · rfl
    · have ha : a < 256 := hb a (by simp)
      show base64Decode [b64Char (a / 4), b64Char (a % 4 * 16), '=', '='] = some [a]
      rw [show base64Decode [b64Char (a / 4), b64Char (a % 4 * 16), '=', '='] =
        (do
          let x ← b64Value (b64Char (a / 4))
          let y ← b64Value (b64Char (a % 4 * 16))
          pure [x * 4 + y / 16] : Option (List Nat)) from rfl]
      rw [b64Value_b64Char _ (by omega), b64Value_b64Char _ (by omega)]
      show some [a / 4 * 4 + a % 4 * 16 / 16] = some [a]
      congr 2
      omega
    · have ha : a < 256 := hb a (by simp)
      have hbb : b < 256 := hb b (by simp)
      show base64Decode [b64Char (a / 4), b64Char (a % 4 * 16 + b / 16),
        b64Char (b % 16 * 4), '='] = some [a, b]
      rw [base64Decode.eq_def]
      split
      · rename_i heq; exact absurd heq (by simp)
      · rename_i a' b' heq
        have h3 : b64Char (b % 16 * 4) = '=' := by
          injection heq with h1 heq; injection heq with h2 heq; injection heq with h3 _
        exact absurd h3 (b64Char_ne_eq _ (by omega))
      · rename_i a' b' c' heq
        injection heq with h1 heq; injection heq with h2 heq; injection heq with h3 _
        subst h1; subst h2; subst h3
        rw [b64Value_b64Char _ (by omega), b64Value_b64Char _ (by omega),
          b64Value_b64Char _ (by omega)]
        show some [a / 4 * 4 + (a % 4 * 16 + b / 16) / 16,
          (a % 4 * 16 + b / 16) % 16 * 16 + b % 16 * 4 / 4] = some [a, b]
        congr 2
        · omega
        · congr 1
          omega
      · rename_i a' b' c' d' rest' hno2 hno3 heq
        injection heq with e1 heq; injection heq with e2 heq
        injection heq with e3 heq; injection heq with e4 e5
        exact (hno3 e4.symm e5.symm).elim
      · rename_i hno1 hno2 hno3 hno4
        exact (hno3 (b64Char (a / 4)) (b64Char (a % 4 * 16 + b / 16))
          (b64Char (b % 16 * 4)) rfl).elim
    · have ha : a < 256 := hb a (by simp)
      have hbb : b < 256 := hb b (by simp)
      have hc : c < 256 := hb c (by simp)
      have hrest : ∀ x ∈ rest, x < 256 := fun x hx => hb x (by simp [hx])
      have hlen' : rest.length ≤ k := by
        simp only [List.length_cons] at hlen
        omega
      show base64Decode (b64Char (a / 4) :: b64Char (a % 4 * 16 + b / 16) ::
        b64Char (b % 16 * 4 + c / 64) :: b64Char (c % 64) :: base64Encode rest) =
        some (a :: b :: c :: rest)
      rw [base64Decode.eq_def]
      split
      · rename_i heq; exact absurd heq (by simp)
      · rename_i a' b' heq
        injection heq with h1 heq; injection heq with h2 heq; injection heq with h3 _
        exact absurd h3 (b64Char_ne_eq _ (by omega))
      · rename_i a' b' c' heq
        injection heq with h1 heq; injection heq with h2 heq
        injection heq with h3 heq; injection heq with h4 _
        exact absurd h4 (b64Char_ne_eq _ (by omega))
      · rename_i a' b' c' d' rest' hno2 hno3 heq
        injection heq with e1 heq; injection heq with e2 heq
        injection heq with e3 heq; injection heq with e4 e5
        subst e1; subst e2; subst e3; subst e4; subst e5
        rw [b64Value_b64Char _ (by omega), b64Value_b64Char _ (by omega),
          b64Value_b64Char _ (by omega), b64Value_b64Char _ (by omega),
          ih rest hlen' hrest]
        show some ([a / 4 * 4 + (a % 4 * 16 + b / 16) / 16,
          (a % 4 * 16 + b / 16) % 16 * 16 + (b % 16 * 4 + c / 64) / 4,
          (b % 16 * 4 + c / 64) % 4 * 64 + c % 64] ++ rest) = some (a :: b :: c :: rest)
        have e1 : a / 4 * 4 + (a % 4 * 16 + b / 16) / 16 = a := by omega
        have e2 : (a % 4 * 16 + b / 16) % 16 * 16 + (b % 16 * 4 + c / 64) / 4 = b := by omega
        have e3 : (b % 16 * 4 + c / 64) % 4 * 64 + c % 64 = c := by omega
        rw [e1, e2, e3]
        rfl
      · rename_i hno1 hno2 hno3 hno4
        exact (hno4 (b64Char (a / 4)) (b64Char (a % 4 * 16 + b / 16))
          (b64Char (b % 16 * 4 + c / 64)) (b64Char (c % 64)) (base64Encode rest) rfl).elim

theorem base64_roundtrip (bytes : List Nat) (hb : ∀ b ∈ bytes, b < 256) :
    base64Decode (base64Encode bytes) = some bytes :=
  base64_roundtrip_aux bytes.length bytes le_rfl hb

theorem base64Encode_mem_aux : ∀ (k : Nat) (bytes : List Nat), bytes.length ≤ k →
    (∀ b ∈ bytes, b < 256) → ∀ ch ∈ base64Encode bytes, isB64Char ch = true := by
  intro k
  induction k with
  | zero =>
    intro bytes hlen _
    have : bytes = [] := List.length_eq_zero.mp (Nat.le_zero.mp hlen)
    subst this
    simp [base64Encode]
  | succ k ih =>
    intro bytes hlen hb ch hch
    rcases bytes with _ | ⟨a, _ | ⟨b, _ | ⟨c, rest⟩⟩⟩
    · simp [base64Encode] at hch
    · have ha : a < 256 := hb a (by simp)
      rw [show base64Encode [a] =
        [b64Char (a / 4), b64Char (a % 4 * 16), '=', '='] from rfl] at hch
      simp only [List.mem_cons, List.not_mem_nil, or_false] at hch
      rcases hch with h | h | h | h
      · rw [h]; exact isB64Char_b64Char _ (by omega)
      · rw [h]; exact isB64Char_b64Char _ (by omega)
      · rw [h]; decide
      · rw [h]; decide
    · have ha : a < 256 := hb a (by simp)
      have hbb : b < 256 := hb b (by simp)
      rw [show base64Encode [a, b] = [b64Char (a / 4), b64Char (a % 4 * 16 + b / 16),
        b64Char (b % 16 * 4), '='] from rfl] at hch
      simp only [List.mem_cons, List.not_mem_nil, or_false] at hch
      rcases hch with h | h | h | h
      · rw [h]; exact isB64Char_b64Char _ (by omega)
      · rw [h]; exact isB64Char_b64Char _ (by omega)
      · rw [h]; exact isB64Char_b64Char _ (by omega)
      · rw [h]; decide
    · have ha : a < 256 := hb a (by simp)
      have hbb : b < 256 := hb b (by simp)
      have hc : c < 256 := hb c (by simp)
      have hlen' : rest.length ≤ k := by
        simp only [List.length_cons] at hlen
        omega
      rw [show base64Encode (a :: b :: c :: rest) =
        b64Char (a / 4) :: b64Char (a % 4 * 16 + b / 16) ::
          b64Char (b % 16 * 4 + c / 64) :: b64Char (c % 64) ::
          base64Encode rest from rfl] at hch
      simp only [List.mem_cons] at hch
      rcases hch with h | h | h | h | h
      · rw [h]; exact isB64Char_b64Char _ (by omega)
      · rw [h]; exact isB64Char_b64Char _ (by omega)
      · rw [h]; exact isB64Char_b64Char _ (by omega)
      · rw [h]; exact isB64Char_b64Char _ (by omega)
      · exact ih rest hlen' (fun x hx => hb x (by simp [hx])) ch h

theorem base64Encode_mem (bytes : List Nat) (hb : ∀ b ∈ bytes, b < 256) :
    ∀ ch ∈ base64Encode bytes, isB64Char ch = true :=
  base64Encode_mem_aux bytes.length bytes le_rfl hb

theorem base64Encode_ne_nil (bytes : List Nat) (h : bytes ≠ []) :
    base64Encode bytes ≠ [] := by
  rcases bytes with _ | ⟨a, _ | ⟨b, _ | ⟨c, rest⟩⟩⟩
  · exact absurd rfl h
  · simp [base64Encode]
  · simp [base64Encode]
  · simp [base64Encode]

theorem isAsciiDigit_iff (c : Char) : isAsciiDigit c = true ↔ 48 ≤ c.toNat ∧ c.toNat ≤ 57 := by
  rw [isAsciiDigit, Bool.and_eq_true, decide_eq_true_iff, decide_eq_true_iff]
  rw [Char.le_def, Char.le_def, UInt32.le_def, UInt32.le_def, BitVec.le_def]
  rfl

theorem char_ne_of_toNat_ne {c d : Char} (h : c.toNat ≠ d.toNat) : c ≠ d :=
  fun he => h (congrArg Char.toNat he)

theorem digit_char_facts {c : Char} (h48 : 48 ≤ c.toNat) (h57 : c.toNat ≤ 57) :
    isAsciiDigit c = true ∧ c ≠ ',' ∧ c ≠ ';' ∧ c ≠ '"' ∧ c.isWhitespace = false := by
  refine ⟨(isAsciiDigit_iff c).mpr ⟨h48, h57⟩,
    char_ne_of_toNat_ne (by rw [show (',').toNat = 44 from rfl]; omega),
    char_ne_of_toNat_ne (by rw [show (';').toNat = 59 from rfl]; omega),
    char_ne_of_toNat_ne (by rw [show ('"').toNat = 34 from rfl]; omega), ?_⟩
  cases hw : c.isWhitespace
  · rfl
  · exfalso
    have hd : ((c = ' ' ∨ c = '\t') ∨ c = '\r') ∨ c = '\n' := by
      simpa [Char.isWhitespace] using hw
    rcases hd with ((h | h) | h) | h <;>
      (subst h; revert h48 h57; decide)

theorem natReprAux_digits : ∀ (fuel n : Nat), ∀ c ∈ natReprAux fuel n,
    48 ≤ c.toNat ∧ c.toNat ≤ 57 := by
  intro fuel
  induction fuel with
  | zero => intro n c hc; simp [natReprAux] at hc
  | succ fuel ih =>
    intro n c hc
    rw [natReprAux] at hc
    by_cases hn : n < 10
    · rw [if_pos hn] at hc
      simp only [List.mem_singleton] at hc
      subst hc
      rw [char_toNat_ofNat (Or.inl (by omega))]
      omega
    · rw [if_neg hn] at hc
      rcases List.mem_append.mp hc with h | h
      · exact ih (n / 10) c h
      · simp only [List.mem_singleton] at h
        subst h
        rw [char_toNat_ofNat (Or.inl (by omega))]
        omega

theorem natRepr_digits (n : Nat) : ∀ c ∈ natRepr n, 48 ≤ c.toNat ∧ c.toNat ≤ 57 :=
  natReprAux_digits (n + 1) n

theorem natReprAux_foldDigits : ∀ (fuel n : Nat), n < fuel →
    foldDigits (natReprAux fuel n) = n := by
  intro fuel
  induction fuel with
  | zero => intro n h; omega
  | succ fuel ih =>
    intro n h
    rw [natReprAux]
    by_cases hn : n < 10
    · rw [if_pos hn]
      show List.foldl _ 0 _ = n
      rw [List.foldl_cons, List.foldl_nil, char_toNat_ofNat (Or.inl (by omega))]
      omega
    · rw [if_neg hn]
      show List.foldl _ 0 _ = n
      rw [List.foldl_append, List.foldl_cons, List.foldl_nil]
      have hd : n / 10 < fuel := by omega
      have := ih (n / 10) hd
      rw [show List.foldl (fun acc c => acc * 10 + (c.toNat - 48)) 0
        (natReprAux fuel (n / 10)) = foldDigits (natReprAux fuel (n / 10)) from rfl, this]
      rw [char_toNat_ofNat (Or.inl (by omega))]
      omega

theorem natRepr_foldDigits (n : Nat) : foldDigits (natRepr n) = n :=
  natReprAux_foldDigits (n + 1) n (by omega)

theorem natRepr_ne_nil (n : Nat) : natRepr n ≠ [] := by
  rw [natRepr, natReprAux]
  by_cases hn : n < 10
  · rw [if_pos hn]; simp
  · rw [if_neg hn]; simp

/-! ## C1: quoted component list and regex-scan lemmas -/

theorem scanQuotedAux_nil (f : Nat) : scanQuotedAux f [] = [] := by
  cases f <;> rfl

theorem scanQuotedAux_step (f : Nat) (c : Char) (rest : List Char) (hc : ¬(c = '"')) :
    scanQuotedAux (f + 1) (c :: rest) = scanQuotedAux f rest := by
  rw [scanQuotedAux, if_neg hc]

theorem scanQuotedAux_block (f : Nat) (inner tail : List Char)
    (hne : inner ≠ []) (hq : ('"' : Char) ∉ inner) :
    scanQuotedAux (f + 1) ('"' :: (inner ++ '"' :: tail)) = inner :: scanQuotedAux f tail := by
  rw [scanQuotedAux, if_pos rfl]
  have htw : (inner ++ '"' :: tail).takeWhile (fun x => decide ¬(x = '"')) = inner :=
    takeWhile_append_stop _ inner '"' tail
      (fun x hx => by simp; exact fun h => hq (h ▸ hx)) (by simp)
  simp only [htw, List.drop_left]
  have hie : inner.isEmpty = false := by
    cases hce : inner
    · exact absurd hce hne
    · rfl
  simp [hie]

theorem intercalate_go_append (s x y : String) (t : List String) :
    String.intercalate.go (x ++ y) s t = x ++ String.intercalate.go y s t := by
  induction t generalizing y with
  | nil => rfl
  | cons a as ih =>
    show String.intercalate.go ((x ++ y) ++ s ++ a) s as = _
    rw [show (x ++ y) ++ s ++ a = x ++ (y ++ s ++ a) by
      rw [String.append_assoc, String.append_assoc, String.append_assoc]]
    rw [ih]
    rfl

theorem intercalate_cons2 (s a b : String) (t : List String) :
    String.intercalate s (a :: b :: t) = a ++ s ++ String.intercalate s (b :: t) := by
  show String.intercalate.go a s (b :: t) = _
  show String.intercalate.go (a ++ s ++ b) s t = _
  rw [intercalate_go_append, String.intercalate]

theorem qc_data_one (c : String) :
    (String.intercalate " " ([c].map (fun x => "\"" ++ x ++ "\""))).data
      = '"' :: (c.data ++ ['"']) := by
  show ("\"" ++ c ++ "\"").data = _
  simp [String.data_append]

theorem qc_data_cons (c d : String) (t : List String) :
    (String.intercalate " " ((c :: d :: t).map (fun x => "\"" ++ x ++ "\""))).data
      = '"' :: (c.data ++ '"' :: ' ' ::
          (String.intercalate " " ((d :: t).map (fun x => "\"" ++ x ++ "\""))).data) := by
  rw [List.map_cons, List.map_cons, intercalate_cons2]
  simp [String.data_append]

theorem qc_data_mem : ∀ (comps : List String) (x : Char),
    x ∈ (String.intercalate " " (comps.map (fun c => "\"" ++ c ++ "\""))).data →
    x = '"' ∨ x = ' ' ∨ ∃ c ∈ comps, x ∈ c.data := by
  intro comps
  induction comps with
  | nil =>
    intro x hx
    rw [show (String.intercalate " " (([] : List String).map
      (fun c => "\"" ++ c ++ "\""))).data = [] from rfl] at hx
    exact absurd hx (List.not_mem_nil x)
  | cons c t ih =>
    cases t with
    | nil =>
      intro x hx
      rw [qc_data_one] at hx
      simp only [List.mem_cons, List.mem_append, List.mem_singleton,
        List.not_mem_nil, or_false] at hx
      rcases hx with h | h | h
      · exact Or.inl h
      · exact Or.inr (Or.inr ⟨c, by simp, h⟩)
      · exact Or.inl h
    | cons d t' =>
      intro x hx
      rw [qc_data_cons] at hx
      simp only [List.mem_cons, List.mem_append, List.mem_singleton,
        List.not_mem_nil, or_false] at hx
      rcases hx with h | h | h | h | h
      · exact Or.inl h
      · exact Or.inr (Or.inr ⟨c, by simp, h⟩)
      · exact Or.inl h
      · exact Or.inr (Or.inl h)
      · rcases ih x h with h | h | ⟨e, he, hm⟩
        · exact Or.inl h
        · exact Or.inr (Or.inl h)
        · exact Or.inr (Or.inr ⟨e, by simp [he], hm⟩)

theorem scanQuotedAux_qc : ∀ (comps : List String) (fuel : Nat),
    (∀ c ∈ comps, c.data ≠ [] ∧ ('"' : Char) ∉ c.data) →
    (String.intercalate " " (comps.map (fun x => "\"" ++ x ++ "\""))).data.length ≤ fuel →
    scanQuotedAux fuel (String.intercalate " " (comps.map (fun x => "\"" ++ x ++ "\""))).data
      = comps.map String.data := by
  intro comps
  induction comps with
  | nil =>
    intro fuel _ _
    show scanQuotedAux fuel [] = []
    exact scanQuotedAux_nil fuel
  | cons c t ih =>
    intro fuel hcs hfuel
    obtain ⟨hne, hq⟩ := hcs c (by simp)
    cases t with
    | nil =>
      rw [qc_data_one] at hfuel ⊢
      cases fuel with
      | zero => simp at hfuel
      | succ f =>
        rw [show ('"' : Char) :: (c.data ++ ['"']) = '"' :: (c.data ++ '"' :: []) from rfl]
        rw [scanQuotedAux_block f c.data [] hne hq, scanQuotedAux_nil]
        rfl
    | cons d t' =>
      rw [qc_data_cons] at hfuel ⊢
      have hlen : (('"' : Char) :: (c.data ++ '"' :: ' ' ::
          (String.intercalate " " ((d :: t').map (fun x => "\"" ++ x ++ "\""))).data)).length
          = c.data.length + 3 +
            (String.intercalate " "
              ((d :: t').map (fun x => "\"" ++ x ++ "\""))).data.length := by
        simp
        omega
      cases fuel with
      | zero => simp at hfuel
      | succ f =>
        rw [scanQuotedAux_block f c.data _ hne hq]
        cases f with
        | zero =>
          rw [hlen] at hfuel
          omega
        | succ g =>
          rw [scanQuotedAux_step g ' ' _ (by decide)]
          rw [ih g (fun x hx => hcs x (by simp [hx])) (by rw [hlen] at hfuel; omega)]
          rfl

theorem isPrefixOf_append_self (pat rest : List Char) :
    pat.isPrefixOf (pat ++ rest) = true := by
  induction pat with
  | nil => simp [List.isPrefixOf]
  | cons a t ih => simp [List.isPrefixOf, ih]

theorem findQuotedParam_step (pat : List Char) (c : Char) (t : List Char)
    (h : pat.isPrefixOf (c :: t) = false) :
    findQuotedParam pat (c :: t) = findQuotedParam pat t := by
  rw [findQuotedParam, h]
  rfl

theorem findQuotedParam_skip (pat c0 xs ys : List Char) (hpat : pat = ';' :: c0)
    (hxs : ∀ x ∈ xs, x ≠ ';') :
    findQuotedParam pat (xs ++ ys) = findQuotedParam pat ys := by
  induction xs with
  | nil => rfl
  | cons a t ih =>
    rw [List.cons_append, findQuotedParam_step, ih (fun x hx => hxs x (by simp [hx]))]
    rw [hpat]
    have hb : ((';' : Char) == a) = false :=
      beq_eq_false_iff_ne.mpr (fun h => hxs a (by simp) h.symm)
    simp [List.isPrefixOf, hb]

theorem findQuotedParam_hit (pat c0 inner rest : List Char) (hpat : pat = ';' :: c0)
    (hne : inner ≠ []) (hq : ('"' : Char) ∉ inner) :
    findQuotedParam pat (pat ++ (inner ++ '"' :: rest)) = some inner := by
  have hcons : pat ++ (inner ++ '"' :: rest) = ';' :: (c0 ++ (inner ++ '"' :: rest)) := by
    rw [hpat]; rfl
  rw [hcons, findQuotedParam]
  have hpre : pat.isPrefixOf (';' :: (c0 ++ (inner ++ '"' :: rest))) = true := by
    rw [← hcons]
    exact isPrefixOf_append_self pat _
  rw [hpre]
  have hdrop : (';' :: (c0 ++ (inner ++ '"' :: rest))).drop pat.length =
      inner ++ '"' :: rest := by
    rw [← hcons]
    exact List.drop_left pat _
  simp only [if_true, hdrop]
  have htw : (inner ++ '"' :: rest).takeWhile (fun x => decide ¬(x = '"')) = inner :=
    takeWhile_append_stop _ inner '"' rest
      (fun x hx => by simp; exact fun h => hq (h ▸ hx)) (by simp)
  simp only [htw, List.drop_left]
  have hie : inner.isEmpty = false := by
    cases hce : inner
    · exact absurd hce hne
    · rfl
  simp [hie]

theorem findIntParam_step (pat : List Char) (c : Char) (t : List Char)
    (h : pat.isPrefixOf (c :: t) = false) :
    findIntParam pat (c :: t) = findIntParam pat t := by
  rw [findIntParam, h]
  rfl

theorem findIntParam_skip (pat c0 xs ys : List Char) (hpat : pat = ';' :: c0)
    (hxs : ∀ x ∈ xs, x ≠ ';') :
    findIntParam pat (xs ++ ys) = findIntParam pat ys := by
  induction xs with
  | nil => rfl
  | cons a t ih =>
    rw [List.cons_append, findIntParam_step, ih (fun x hx => hxs x (by simp [hx]))]
    rw [hpat]
    have hb : ((';' : Char) == a) = false :=
      beq_eq_false_iff_ne.mpr (fun h => hxs a (by simp) h.symm)
    simp [List.isPrefixOf, hb]

theorem findIntParam_hit (pat c0 D : List Char) (hpat : pat = ';' :: c0)
    (hne : D ≠ []) (hdig : ∀ x ∈ D, isAsciiDigit x = true) :
    findIntParam pat (pat ++ D) = some D := by
  have hcons : pat ++ D = ';' :: (c0 ++ D) := by rw [hpat]; rfl
  rw [hcons, findIntParam]
  have hpre : pat.isPrefixOf (';' :: (c0 ++ D)) = true := by
    rw [← hcons]
    exact isPrefixOf_append_self pat _
  rw [hpre]
  have hdrop : (';' :: (c0 ++ D)).drop pat.length = D := by
    rw [← hcons]
    exact List.drop_left pat _
  simp only [if_true, hdrop]
  rw [takeWhile_all _ _ hdig]
  have hie : D.isEmpty = false := by
    cases hce : D
    · exact absurd hce hne
    · rfl
  simp [hie]

theorem splitSignaturesAux_no_comma (cs : List Char) : ∀ (prev : Option Char) (inP : Int)
    (inQ : Bool) (current : List Char) (results : List (List Char)),
    (∀ c ∈ cs, c ≠ ',') → current ++ cs ≠ [] →
    splitSignaturesAux cs prev inP inQ current results = results ++ [current ++ cs] := by
  induction cs with
  | nil =>
    intro prev inP inQ current results _ hne
    rw [List.append_nil] at hne ⊢
    rw [splitSignaturesAux]
    have hie : current.isEmpty = false := by
      cases hce : current
      · exact absurd hce hne
      · rfl
    simp [hie]
  | cons c rest ih =>
    intro prev inP inQ current results hnc hne
    have hrec : ∀ (prev' : Option Char) (inP' : Int) (inQ' : Bool),
        splitSignaturesAux rest prev' inP' inQ' (current ++ [c]) results =
          results ++ [current ++ c :: rest] := by
      intro prev' inP' inQ'
      rw [ih prev' inP' inQ' (current ++ [c]) results
        (fun x hx => hnc x (by simp [hx])) (by simp)]
      simp
    rw [splitSignaturesAux]
    split_ifs with h1 h2 h3 h4
    · exact hrec _ _ _
    · exact hrec _ _ _
    · exact hrec _ _ _
    · exfalso
      have hc : c = ',' := by
        simp only [Bool.and_eq_true, decide_eq_true_iff] at h4
        exact h4.1.1
      exact hnc c (by simp) hc
    · exact hrec _ _ _

theorem jsTrim_eq_self (cs : List Char)
    (hhead : ∀ c, cs.head? = some c → c.isWhitespace = false)
    (hlast : ∀ c, cs.getLast? = some c → c.isWhitespace = false) :
    jsTrim cs = cs := by
  cases cs with
  | nil => rfl
  | cons a t =>
    have h1 : (a :: t).dropWhile Char.isWhitespace = a :: t := by
      rw [List.dropWhile_cons, hhead a rfl]
      simp
    rw [jsTrim, h1]
    cases hr : (a :: t).reverse with
    | nil => simp at hr
    | cons d r' =>
      have hd : (a :: t).getLast? = some d := by
        rw [List.getLast?_eq_head?_reverse, hr]
        rfl
      rw [List.dropWhile_cons, hlast d hd]
      simp only [Bool.false_eq_true, if_false]
      rw [← hr, List.reverse_reverse]

theorem scanSignaturesAux_nil (f : Nat) : scanSignaturesAux f [] = [] := by
  cases f <;> rfl

theorem scanSignaturesAux_gen (f : Nat) (B : List Char) (hB : B ≠ [])
    (hb : ∀ x ∈ B, isB64Char x = true) :
    scanSignaturesAux (f + 1) ('s' :: 'i' :: 'g' :: '1' :: '=' :: ':' :: (B ++ [':'])) =
      [("sig1", B)] := by
  rw [scanSignaturesAux]
  rw [if_pos (by decide : isAsciiAlpha 's' = true)]
  have hlab : ('i' :: 'g' :: '1' :: '=' :: ':' :: (B ++ [':'])).takeWhile isLabelChar =
      ['i', 'g', '1'] := by
    simp [List.takeWhile_cons,
      show isLabelChar 'i' = true from by decide,
      show isLabelChar 'g' = true from by decide,
      show isLabelChar '1' = true from by decide,
      show isLabelChar '=' = false from by decide]
  simp only [hlab]
  have hdrop : ('i' :: 'g' :: '1' :: '=' :: ':' :: (B ++ [':'])).drop
      (['i', 'g', '1'] : List Char).length = '=' :: ':' :: (B ++ [':']) := by
    rfl
  simp only [hdrop]
  have htw : (B ++ [':']).takeWhile isB64Char = B :=
    takeWhile_append_stop _ B ':' [] hb (by decide)
  simp only [htw, List.drop_left]
  have hie : B.isEmpty = false := by
    cases hce : B
    · exact absurd hce hB
    · rfl
  simp [hie]
  exact scanSignaturesAux_nil f

/-- The anchored parse of a generated `Signature-Input` value
`sig1=("c1" ... "cn");keyid="K";alg="A";created=D`, for component,
key-id and algorithm strings free of the parser's delimiter characters
and a nonempty digit run `D`. -/
theorem parseSingle_gen (comps : List String) (K A D : List Char)
    (hcomps : ∀ c ∈ comps, c.data ≠ [] ∧ ('"' : Char) ∉ c.data ∧ (')' : Char) ∉ c.data)
    (hKne : K ≠ []) (hK : ∀ x ∈ K, x ≠ '"' ∧ x ≠ ';')
    (hAne : A ≠ []) (hA : ∀ x ∈ A, x ≠ '"' ∧ x ≠ ';')
    (hDne : D ≠ []) (hD : ∀ x ∈ D, isAsciiDigit x = true ∧ x ≠ ';') :
    parseSingleSignatureInput ('s' :: 'i' :: 'g' :: '1' :: '=' :: '(' ::
      ((String.intercalate " " (comps.map (fun x => "\"" ++ x ++ "\""))).data ++ ')' ::
        ';' :: 'k' :: 'e' :: 'y' :: 'i' :: 'd' :: '=' :: '"' ::
          (K ++ '"' :: ';' :: 'a' :: 'l' :: 'g' :: '=' :: '"' ::
            (A ++ '"' :: ';' :: 'c' :: 'r' :: 'e' :: 'a' :: 't' :: 'e' :: 'd' :: '=' :: D))))
    = some { label := "sig1", components := comps, keyid := String.mk K,
             alg := String.mk A, created := some (foldDigits D), expires := none,
             nonce := none } := by
  set RC : List Char := ';' :: 'c' :: 'r' :: 'e' :: 'a' :: 't' :: 'e' :: 'd' :: '=' :: D
    with hRC
  set RA : List Char := ';' :: 'a' :: 'l' :: 'g' :: '=' :: '"' :: (A ++ '"' :: RC) with hRA
  set PAR : List Char := ';' :: 'k' :: 'e' :: 'y' :: 'i' :: 'd' :: '=' :: '"' ::
    (K ++ '"' :: RA) with hPAR
  rw [parseSingleSignatureInput]
  rw [if_pos (by decide : isAsciiAlpha 's' = true)]
  have hlab : ('i' :: 'g' :: '1' :: '=' :: '(' ::
      ((String.intercalate " " (comps.map (fun x => "\"" ++ x ++ "\""))).data ++ ')' ::
        PAR)).takeWhile isLabelChar = ['i', 'g', '1'] := by
    simp [List.takeWhile_cons,
      show isLabelChar 'i' = true from by decide,
      show isLabelChar 'g' = true from by decide,
      show isLabelChar '1' = true from by decide,
      show isLabelChar '=' = false from by decide]
  simp only [hlab]
  have hdrop3 : List.drop (['i', 'g', '1'] : List Char).length
      ('i' :: 'g' :: '1' :: '=' :: '(' ::
        ((String.intercalate " " (comps.map (fun x => "\"" ++ x ++ "\""))).data ++ ')' ::
          PAR)) =
      '=' :: '(' ::
        ((String.intercalate " " (comps.map (fun x => "\"" ++ x ++ "\""))).data ++ ')' ::
          PAR) := rfl
  simp only [hdrop3]
  have hmemQC : ∀ x ∈ (String.intercalate " " (comps.map (fun x => "\"" ++ x ++ "\""))).data,
      (fun x => decide ¬(x = ')')) x = true := by
    intro x hx
    rcases qc_data_mem comps x hx with h | h | ⟨c, hc, hm⟩
    · subst h; decide
    · subst h; decide
    · simp only [decide_eq_true_iff]
      intro he
      exact (hcomps c hc).2.2 (he ▸ hm)
  have htwQC : ((String.intercalate " " (comps.map (fun x => "\"" ++ x ++ "\""))).data ++ ')' ::
      PAR).takeWhile (fun x => decide ¬(x = ')')) =
      (String.intercalate " " (comps.map (fun x => "\"" ++ x ++ "\""))).data :=
    takeWhile_append_stop _ _ ')' _ hmemQC (by simp)
  simp only [htwQC, List.drop_left]
  have hKq : ('"' : Char) ∉ K := fun hmem => (hK '"' hmem).1 rfl
  have hAq : ('"' : Char) ∉ A := fun hmem => (hA '"' hmem).1 rfl
  have hlit1 : ∀ y ∈ (['k', 'e', 'y', 'i', 'd', '=', '"'] : List Char), y ≠ ';' := by decide
  have hlit2 : ∀ y ∈ (['a', 'l', 'g', '=', '"'] : List Char), y ≠ ';' := by decide
  have hlit3 : ∀ y ∈ (['c', 'r', 'e', 'a', 't', 'e', 'd', '='] : List Char), y ≠ ';' := by
    decide
  have hlitq : ∀ y ∈ (['"'] : List Char), y ≠ ';' := by decide
  have hxs1 : ∀ x ∈ (['k', 'e', 'y', 'i', 'd', '=', '"'] : List Char) ++ (K ++ ['"']),
      x ≠ ';' := by
    intro x hx
    rcases List.mem_append.mp hx with h | h
    · exact hlit1 x h
    · rcases List.mem_append.mp h with h | h
      · exact (hK x h).2
      · exact hlitq x h
  have hxs2 : ∀ x ∈ (['a', 'l', 'g', '=', '"'] : List Char) ++ (A ++ ['"']), x ≠ ';' := by
    intro x hx
    rcases List.mem_append.mp hx with h | h
    · exact hlit2 x h
    · rcases List.mem_append.mp h with h | h
      · exact (hA x h).2
      · exact hlitq x h
  have hxs3 : ∀ x ∈ (['c', 'r', 'e', 'a', 't', 'e', 'd', '='] : List Char) ++ D, x ≠ ';' := by
    intro x hx
    rcases List.mem_append.mp hx with h | h
    · exact hlit3 x h
    · exact (hD x h).2
  have hsplit1 : ('k' :: 'e' :: 'y' :: 'i' :: 'd' :: '=' :: '"' :: (K ++ '"' :: RA)) =
      ((['k', 'e', 'y', 'i', 'd', '=', '"'] : List Char) ++ (K ++ ['"'])) ++ RA := by
    simp
  have hsplit2 : ('a' :: 'l' :: 'g' :: '=' :: '"' :: (A ++ '"' :: RC)) =
      ((['a', 'l', 'g', '=', '"'] : List Char) ++ (A ++ ['"'])) ++ RC := by
    simp
  have hsplit3 : ('c' :: 'r' :: 'e' :: 'a' :: 't' :: 'e' :: 'd' :: '=' :: D) =
      ((['c', 'r', 'e', 'a', 't', 'e', 'd', '='] : List Char) ++ D) ++ [] := by
    simp
  have hkeyid : findQuotedParam [';', 'k', 'e', 'y', 'i', 'd', '=', '"'] PAR = some K := by
    rw [hPAR]
    exact findQuotedParam_hit [';', 'k', 'e', 'y', 'i', 'd', '=', '"']
      ['k', 'e', 'y', 'i', 'd', '=', '"'] K RA rfl hKne hKq
  have halg : findQuotedParam [';', 'a', 'l', 'g', '=', '"'] PAR = some A := by
    rw [hPAR]
    rw [findQuotedParam_step [';', 'a', 'l', 'g', '=', '"'] ';'
      ('k' :: 'e' :: 'y' :: 'i' :: 'd' :: '=' :: '"' :: (K ++ '"' :: RA)) rfl]
    rw [hsplit1, findQuotedParam_skip _ ['a', 'l', 'g', '=', '"'] _ _ rfl hxs1]
    rw [hRA]
    exact findQuotedParam_hit [';', 'a', 'l', 'g', '=', '"'] ['a', 'l', 'g', '=', '"']
      A RC rfl hAne hAq
  have hcre : findIntParam [';', 'c', 'r', 'e', 'a', 't', 'e', 'd', '='] PAR = some D := by
    rw [hPAR]
    rw [findIntParam_step [';', 'c', 'r', 'e', 'a', 't', 'e', 'd', '='] ';'
      ('k' :: 'e' :: 'y' :: 'i' :: 'd' :: '=' :: '"' :: (K ++ '"' :: RA)) rfl]
    rw [hsplit1, findIntParam_skip _ ['c', 'r', 'e', 'a', 't', 'e', 'd', '='] _ _ rfl hxs1]
    rw [hRA]
    rw [findIntParam_step [';', 'c', 'r', 'e', 'a', 't', 'e', 'd', '='] ';'
      ('a' :: 'l' :: 'g' :: '=' :: '"' :: (A ++ '"' :: RC)) rfl]
    rw [hsplit2, findIntParam_skip _ ['c', 'r', 'e', 'a', 't', 'e', 'd', '='] _ _ rfl hxs2]
    rw [hRC]
    exact findIntParam_hit [';', 'c', 'r', 'e', 'a', 't', 'e', 'd', '=']
      ['c', 'r', 'e', 'a', 't', 'e', 'd', '='] D rfl hDne (fun x hx => (hD x hx).1)
  have hexp : findIntParam [';', 'e', 'x', 'p', 'i', 'r', 'e', 's', '='] PAR = none := by
    rw [hPAR]
    rw [findIntParam_step [';', 'e', 'x', 'p', 'i', 'r', 'e', 's', '='] ';'
      ('k' :: 'e' :: 'y' :: 'i' :: 'd' :: '=' :: '"' :: (K ++ '"' :: RA)) rfl]
    rw [hsplit1, findIntParam_skip _ ['e', 'x', 'p', 'i', 'r', 'e', 's', '='] _ _ rfl hxs1]
    rw [hRA]
    rw [findIntParam_step [';', 'e', 'x', 'p', 'i', 'r', 'e', 's', '='] ';'
      ('a' :: 'l' :: 'g' :: '=' :: '"' :: (A ++ '"' :: RC)) rfl]
    rw [hsplit2, findIntParam_skip _ ['e', 'x', 'p', 'i', 'r', 'e', 's', '='] _ _ rfl hxs2]
    rw [hRC]
    rw [findIntParam_step [';', 'e', 'x', 'p', 'i', 'r', 'e', 's', '='] ';'
      ('c' :: 'r' :: 'e' :: 'a' :: 't' :: 'e' :: 'd' :: '=' :: D) rfl]
    rw [hsplit3, findIntParam_skip _ ['e', 'x', 'p', 'i', 'r', 'e', 's', '='] _ _ rfl hxs3]
    rfl
  have hnon : findQuotedParam [';', 'n', 'o', 'n', 'c', 'e', '=', '"'] PAR = none := by
    rw [hPAR]
    rw [findQuotedParam_step [';', 'n', 'o', 'n', 'c', 'e', '=', '"'] ';'
      ('k' :: 'e' :: 'y' :: 'i' :: 'd' :: '=' :: '"' :: (K ++ '"' :: RA)) rfl]
    rw [hsplit1, findQuotedParam_skip _ ['n', 'o', 'n', 'c', 'e', '=', '"'] _ _ rfl hxs1]
    rw [hRA]
    rw [findQuotedParam_step [';', 'n', 'o', 'n', 'c', 'e', '=', '"'] ';'
      ('a' :: 'l' :: 'g' :: '=' :: '"' :: (A ++ '"' :: RC)) rfl]
    rw [hsplit2, findQuotedParam_skip _ ['n', 'o', 'n', 'c', 'e', '=', '"'] _ _ rfl hxs2]
    rw [hRC]
    rw [findQuotedParam_step [';', 'n', 'o', 'n', 'c', 'e', '=', '"'] ';'
      ('c' :: 'r' :: 'e' :: 'a' :: 't' :: 'e' :: 'd' :: '=' :: D) rfl]
    rw [hsplit3, findQuotedParam_skip _ ['n', 'o', 'n', 'c', 'e', '=', '"'] _ _ rfl hxs3]
    rfl
  simp only [hkeyid, halg, hcre, hexp, hnon]
  have hscan : scanQuoted (String.intercalate " "
      (comps.map (fun x => "\"" ++ x ++ "\""))).data = comps.map String.data :=
    scanQuotedAux_qc comps _ (fun c hc => ⟨(hcomps c hc).1, (hcomps c hc).2.1⟩) le_rfl
  rw [hscan, List.map_map]
  have hid : (String.mk ∘ String.data) = id := funext fun s => rfl
  rw [hid, List.map_id]
  simp

theorem getLast?_append_right {α : Type} (l1 l2 : List α) (h : l2 ≠ []) :
    (l1 ++ l2).getLast? = l2.getLast? := by
  rw [List.getLast?_append]
  cases hg : l2.getLast? with
  | none => exact absurd (List.getLast?_eq_none_iff.mp hg) h
  | some d => rfl

/-- `parseSignatureInput` on the exact header value emitted by the signer:
a single segment yielding the signer's label, components, key id,
algorithm and `created` timestamp, with no `expires` and no `nonce`. -/
theorem parseSignatureInput_gen (comps : List String) (keyId alg : String) (now : Nat)
    (hcomps : ∀ c ∈ comps, c.data ≠ [] ∧ ('"' : Char) ∉ c.data ∧ (')' : Char) ∉ c.data ∧
      (',' : Char) ∉ c.data)
    (hKne : keyId.data ≠ []) (hK : ∀ x ∈ keyId.data, x ≠ '"' ∧ x ≠ ';' ∧ x ≠ ',')
    (hAne : alg.data ≠ []) (hA : ∀ x ∈ alg.data, x ≠ '"' ∧ x ≠ ';' ∧ x ≠ ',') :
    parseSignatureInput ("sig1=(" ++
        String.intercalate " " (comps.map (fun c => "\"" ++ c ++ "\"")) ++
        ");keyid=\"" ++ keyId ++ "\";alg=\"" ++ alg ++ "\";created=" ++ natDecStr now)
      = [{ label := "sig1", components := comps, keyid := keyId, alg := alg,
           created := some now, expires := none, nonce := none }] := by
  have hdata : ("sig1=(" ++
      String.intercalate " " (comps.map (fun c => "\"" ++ c ++ "\"")) ++
      ");keyid=\"" ++ keyId ++ "\";alg=\"" ++ alg ++ "\";created=" ++ natDecStr now).data
      = 's' :: 'i' :: 'g' :: '1' :: '=' :: '(' ::
        ((String.intercalate " " (comps.map (fun c => "\"" ++ c ++ "\""))).data ++ ')' ::
          ';' :: 'k' :: 'e' :: 'y' :: 'i' :: 'd' :: '=' :: '"' ::
            (keyId.data ++ '"' :: ';' :: 'a' :: 'l' :: 'g' :: '=' :: '"' ::
              (alg.data ++ '"' :: ';' :: 'c' :: 'r' :: 'e' :: 'a' :: 't' :: 'e' :: 'd' ::
                '=' :: natRepr now))) := by
    show (("sig1=(" ++
      String.intercalate " " (comps.map (fun c => "\"" ++ c ++ "\"")) ++
      ");keyid=\"" ++ keyId ++ "\";alg=\"" ++ alg ++ "\";created=").data ++
        (String.mk (natRepr now)).data) = _
    simp [String.data_append]
  have hflat : ("sig1=(" ++
      String.intercalate " " (comps.map (fun c => "\"" ++ c ++ "\"")) ++
      ");keyid=\"" ++ keyId ++ "\";alg=\"" ++ alg ++ "\";created=" ++ natDecStr now).data
      = ['s', 'i', 'g', '1', '=', '('] ++
        ((String.intercalate " " (comps.map (fun c => "\"" ++ c ++ "\""))).data ++
          ([')', ';', 'k', 'e', 'y', 'i', 'd', '=', '"'] ++
            (keyId.data ++
              (['"', ';', 'a', 'l', 'g', '=', '"'] ++
                (alg.data ++
                  (['"', ';', 'c', 'r', 'e', 'a', 't', 'e', 'd', '='] ++
                    natRepr now)))))) := by
    rw [hdata]
    simp
  have hCLmem : ∀ x ∈ (String.intercalate " "
      (comps.map (fun c => "\"" ++ c ++ "\""))).data, x ≠ ',' := by
    intro x hx
    rcases qc_data_mem comps x hx with h | h | ⟨c, hc, hm⟩
    · subst h; decide
    · subst h; decide
    · exact fun he => (hcomps c hc).2.2.2 (he ▸ hm)
  have hDdig := natRepr_digits now
  have hDmem : ∀ x ∈ natRepr now, x ≠ ',' :=
    fun x hx => (digit_char_facts (hDdig x hx).1 (hDdig x hx).2).2.1
  have hnc : ∀ c ∈ ("sig1=(" ++
      String.intercalate " " (comps.map (fun c => "\"" ++ c ++ "\"")) ++
      ");keyid=\"" ++ keyId ++ "\";alg=\"" ++ alg ++ "\";created=" ++ natDecStr now).data,
      c ≠ ',' := by
    rw [hflat]
    refine List.forall_mem_append.mpr ⟨by decide, ?_⟩
    refine List.forall_mem_append.mpr ⟨hCLmem, ?_⟩
    refine List.forall_mem_append.mpr ⟨by decide, ?_⟩
    refine List.forall_mem_append.mpr ⟨fun x hx => (hK x hx).2.2, ?_⟩
    refine List.forall_mem_append.mpr ⟨by decide, ?_⟩
    refine List.forall_mem_append.mpr ⟨fun x hx => (hA x hx).2.2, ?_⟩
    exact List.forall_mem_append.mpr ⟨by decide, hDmem⟩
  have hflat2 : ("sig1=(" ++
      String.intercalate " " (comps.map (fun c => "\"" ++ c ++ "\"")) ++
      ");keyid=\"" ++ keyId ++ "\";alg=\"" ++ alg ++ "\";created=" ++ natDecStr now).data
      = (['s', 'i', 'g', '1', '=', '('] ++
        ((String.intercalate " " (comps.map (fun c => "\"" ++ c ++ "\""))).data ++
          ([')', ';', 'k', 'e', 'y', 'i', 'd', '=', '"'] ++
            (keyId.data ++
              (['"', ';', 'a', 'l', 'g', '=', '"'] ++
                (alg.data ++
                  ['"', ';', 'c', 'r', 'e', 'a', 't', 'e', 'd', '='])))))) ++
        natRepr now := by
    rw [hflat]
    simp
  have hlastd : ∀ c, ("sig1=(" ++
      String.intercalate " " (comps.map (fun c => "\"" ++ c ++ "\"")) ++
      ");keyid=\"" ++ keyId ++ "\";alg=\"" ++ alg ++ "\";created=" ++
        natDecStr now).data.getLast? = some c → c.isWhitespace = false := by
    intro c hc
    rw [hflat2, getLast?_append_right _ _ (natRepr_ne_nil now)] at hc
    have hmem : c ∈ natRepr now := List.mem_of_mem_getLast? (by rw [hc]; rfl)
    exact (digit_char_facts (hDdig c hmem).1 (hDdig c hmem).2).2.2.2.2
  have hheadd : ∀ c, ("sig1=(" ++
      String.intercalate " " (comps.map (fun c => "\"" ++ c ++ "\"")) ++
      ");keyid=\"" ++ keyId ++ "\";alg=\"" ++ alg ++ "\";created=" ++
        natDecStr now).data.head? = some c → c.isWhitespace = false := by
    intro c hc
    rw [hdata] at hc
    injection hc with hc
    subst hc
    decide
  have htrim := jsTrim_eq_self _ hheadd hlastd
  have hne : ("sig1=(" ++
      String.intercalate " " (comps.map (fun c => "\"" ++ c ++ "\"")) ++
      ");keyid=\"" ++ keyId ++ "\";alg=\"" ++ alg ++ "\";created=" ++
        natDecStr now).data ≠ [] := by
    rw [hdata]
    simp
  have hsplitres := splitSignaturesAux_no_comma _ none 0 false [] [] hnc (by simpa using hne)
  have hparse : parseSingleSignatureInput ("sig1=(" ++
      String.intercalate " " (comps.map (fun c => "\"" ++ c ++ "\"")) ++
      ");keyid=\"" ++ keyId ++ "\";alg=\"" ++ alg ++ "\";created=" ++ natDecStr now).data
      = some { label := "sig1", components := comps, keyid := String.mk keyId.data,
               alg := String.mk alg.data, created := some (foldDigits (natRepr now)),
               expires := none, nonce := none } := by
    rw [hdata]
    exact parseSingle_gen comps keyId.data alg.data (natRepr now)
      (fun c hc => ⟨(hcomps c hc).1, (hcomps c hc).2.1, (hcomps c hc).2.2.1⟩)
      hKne (fun x hx => ⟨(hK x hx).1, (hK x hx).2.1⟩)
      hAne (fun x hx => ⟨(hA x hx).1, (hA x hx).2.1⟩)
      (natRepr_ne_nil now)
      (fun x hx => ⟨(digit_char_facts (hDdig x hx).1 (hDdig x hx).2).1,
        (digit_char_facts (hDdig x hx).1 (hDdig x hx).2).2.2.1⟩)
  rw [parseSignatureInput, splitSignatures, hsplitres]
  simp only [List.nil_append, List.filterMap_cons, List.filterMap_nil, htrim, hparse]
  rw [natRepr_foldDigits]

/-- `parseSignature` on the exact header value emitted by the signer:
the single label `sig1` with the original signature bytes recovered from
their base64 encoding. -/
theorem parseSignature_gen (B : List Nat) (hne : B ≠ []) (hbytes : ∀ b ∈ B, b < 256) :
    parseSignature ("sig1=:" ++ String.mk (base64Encode B) ++ ":") =
      [{ label := "sig1", value := B }] := by
  have hdata : ("sig1=:" ++ String.mk (base64Encode B) ++ ":").data
      = 's' :: 'i' :: 'g' :: '1' :: '=' :: ':' :: (base64Encode B ++ [':']) := by
    simp [String.data_append]
  rw [parseSignature, hdata, scanSignatures]
  rw [show ('s' :: 'i' :: 'g' :: '1' :: '=' :: ':' ::
      (base64Encode B ++ [':'])).length =
      (5 + (base64Encode B ++ [':']).length) + 1 from by simp; omega]
  rw [scanSignaturesAux_gen _ (base64Encode B) (base64Encode_ne_nil B hne)
    (base64Encode_mem B hbytes)]
  simp only [List.filterMap_cons, List.filterMap_nil, base64_roundtrip B hbytes,
    Option.map_some]
  rfl

/-! ## C1: header-map and received-request lemmas -/

theorem jsGet_append_right_absent (l1 l2 : List (String × String)) (k : String)
    (h : ∀ p ∈ l2, p.1 ≠ k) : jsGet (l1 ++ l2) k = jsGet l1 k := by
  induction l1 with
  | nil =>
    show jsGet l2 k = none
    exact jsGet_eq_none l2 k h
  | cons p t ih =>
    rw [List.cons_append, jsGet_cons, jsGet_cons, ih]

theorem jsGet_append_hit (l : List (String × String)) (k v : String)
    (h : ∀ p ∈ l, p.1 ≠ k) : jsGet (l ++ [(k, v)]) k = some v := by
  induction l with
  | nil => simp [jsGet]
  | cons p t ih =>
    rw [List.cons_append, jsGet_cons, if_neg (h p (by simp)), ih (fun q hq => h q (by simp [hq]))]

theorem jsSet_append_absent (l : List (String × String)) (k v : String)
    (h : ∀ p ∈ l, p.1 ≠ k) : jsSet l k v = l ++ [(k, v)] := by
  rw [jsSet]
  have hf : l.find? (fun p => p.1 = k) = none :=
    List.find?_eq_none.mpr (fun p hp => by simp [h p hp])
  rw [hf]
  rfl

theorem char_eq_of_toNat {c d : Char} (h : c.toNat = d.toNat) : c = d := by
  apply Char.ext
  exact UInt32.ext h

theorem toLower_toLower (c : Char) : c.toLower.toLower = c.toLower := by
  by_cases h : 65 ≤ c.toNat ∧ c.toNat ≤ 90
  · have hnat := toNat_toLower_of_upper h
    apply toLower_eq_self
    rw [hnat]
    omega
  · rw [toLower_eq_self h, toLower_eq_self h]

theorem toLower_toUpper (c : Char) : c.toUpper.toLower = c.toLower := by
  by_cases hl : 97 ≤ c.toNat ∧ c.toNat ≤ 122
  · have hup := toNat_toUpper_of_lower hl
    have h1 : c.toUpper.toLower.toNat = c.toNat := by
      rw [toNat_toLower_of_upper (by rw [hup]; omega), hup]
      omega
    have h2 : c.toLower = c := toLower_eq_self (by omega)
    rw [h2]
    exact char_eq_of_toNat h1
  · rw [toUpper_eq_self hl]

theorem joinDash_map_toLower (qs : List (List Char)) :
    (joinDash qs).map Char.toLower = joinDash (qs.map (List.map Char.toLower)) := by
  induction qs with
  | nil => rfl
  | cons p ps ih =>
    cases ps with
    | nil => rfl
    | cons q qs' =>
      rw [show joinDash (p :: q :: qs') = p ++ '-' :: joinDash (q :: qs') from rfl]
      rw [List.map_append, List.map_cons, show Char.toLower '-' = '-' from by decide, ih]
      rfl

theorem capPart_map_toLower (p : List Char) :
    (capPart p).map Char.toLower = p.map Char.toLower := by
  cases p with
  | nil => rfl
  | cons c t =>
    rw [capPart, List.map_cons, List.map_cons, toLower_toUpper, List.map_map]
    rw [List.map_congr_left (fun x _ => by
      show (Char.toLower ∘ Char.toLower) x = Char.toLower x
      exact toLower_toLower x)]

theorem strToLower_capitalizeHeader (s : String) :
    strToLower (capitalizeHeader s) = strToLower s := by
  show String.mk ((joinDash ((splitDash s.data).map capPart)).map Char.toLower) = _
  rw [joinDash_map_toLower, List.map_map]
  rw [List.map_congr_left (fun p _ => by
    show (List.map Char.toLower ∘ capPart) p = List.map Char.toLower p
    exact capPart_map_toLower p)]
  rw [← joinDash_map_toLower, joinDash_splitDash]
  rfl

/-- The derived components of the request as received over the wire agree
with the signer's request description and its parsed target URL. -/
theorem received_derived_eq (r : SignRequestData) (signed : List (String × String))
    (parts : URLParts) (hurl : urlParse r.url = some parts) :
    extractComponent (receivedRequest r signed parts) "@method" = some r.method ∧
    extractComponent (receivedRequest r signed parts) "@target-uri" = some r.url ∧
    extractComponent (receivedRequest r signed parts) "@authority" = some parts.host ∧
    extractComponent (receivedRequest r signed parts) "@scheme" = some parts.scheme ∧
    extractComponent (receivedRequest r signed parts) "@path" = some parts.pathname ∧
    extractComponent (receivedRequest r signed parts) "@query" =
      some (if parts.search = "" then "?" else parts.search) := by
  obtain ⟨hrecon, hpathq, hsearch⟩ := urlParse_props _ _ hurl
  have hudata : (receivedRequest r signed parts).url.data =
      parts.pathname.data ++ parts.search.data := by
    show (parts.pathname ++ parts.search).data = _
    exact String.data_append _ _
  refine ⟨rfl, ?_, rfl, rfl, ?_, ?_⟩
  · show some (parts.scheme ++ "://" ++ parts.host ++ (parts.pathname ++ parts.search)) =
      some r.url
    refine congrArg some (String.ext ?_)
    rw [hrecon]
    simp [String.data_append]
  · show extractDerivedComponent (receivedRequest r signed parts) "@path" = _
    rw [show extractDerivedComponent (receivedRequest r signed parts) "@path" =
      some (if ((receivedRequest r signed parts).url.data.takeWhile
              (fun x => x ≠ '?')).length < (receivedRequest r signed parts).url.data.length
            then String.mk ((receivedRequest r signed parts).url.data.take
              ((receivedRequest r signed parts).url.data.takeWhile
                (fun x => x ≠ '?')).length)
            else (receivedRequest r signed parts).url) from rfl]
    rcases hsearch with hs | ⟨q, hq, hs⟩
    · have hall : (receivedRequest r signed parts).url.data.takeWhile (fun x => x ≠ '?') =
          (receivedRequest r signed parts).url.data := by
        apply takeWhile_all
        intro x hx
        rw [hudata, hs, List.append_nil] at hx
        simpa using hpathq x hx
      rw [hall, if_neg (Nat.lt_irrefl _)]
      show some (parts.pathname ++ parts.search) = some parts.pathname
      refine congrArg some (String.ext ?_)
      rw [String.data_append, hs, List.append_nil]
    · have htw : (receivedRequest r signed parts).url.data.takeWhile (fun x => x ≠ '?') =
          parts.pathname.data := by
        rw [hudata, hs]
        exact takeWhile_append_stop _ _ _ _
          (fun x hx => by simpa using hpathq x hx) (by simp)
      have hlt : ((receivedRequest r signed parts).url.data.takeWhile
          (fun x => x ≠ '?')).length < (receivedRequest r signed parts).url.data.length := by
        rw [htw, hudata, hs]
        simp
      rw [if_pos hlt, htw]
      refine congrArg some (String.ext ?_).symm
      rw [hudata, hs, List.take_left]
  · show extractDerivedComponent (receivedRequest r signed parts) "@query" = _
    rw [show extractDerivedComponent (receivedRequest r signed parts) "@query" =
      some (if ((receivedRequest r signed parts).url.data.takeWhile
              (fun x => x ≠ '?')).length < (receivedRequest r signed parts).url.data.length
            then String.mk ((receivedRequest r signed parts).url.data.drop
              ((receivedRequest r signed parts).url.data.takeWhile
                (fun x => x ≠ '?')).length)
            else "?") from rfl]
    rcases hsearch with hs | ⟨q, hq, hs⟩
    · have hsearch0 : parts.search = "" := String.ext hs
      have hall : (receivedRequest r signed parts).url.data.takeWhile (fun x => x ≠ '?') =
          (receivedRequest r signed parts).url.data := by
        apply takeWhile_all
        intro x hx
        rw [hudata, hs, List.append_nil] at hx
        simpa using hpathq x hx
      rw [hall, if_neg (Nat.lt_irrefl _), hsearch0]
      simp
    · have hsearchne : parts.search ≠ "" := by
        intro h0
        rw [h0] at hs
        exact List.noConfusion hs
      have htw : (receivedRequest r signed parts).url.data.takeWhile (fun x => x ≠ '?') =
          parts.pathname.data := by
        rw [hudata, hs]
        exact takeWhile_append_stop _ _ _ _
          (fun x hx => by simpa using hpathq x hx) (by simp)
      have hlt : ((receivedRequest r signed parts).url.data.takeWhile
          (fun x => x ≠ '?')).length < (receivedRequest r signed parts).url.data.length := by
        rw [htw, hudata, hs]
        simp
      rw [if_pos hlt, htw, if_neg hsearchne]
      refine congrArg some (String.ext ?_).symm
      rw [hudata, hs, List.drop_left, ← hs]

theorem outbound_header_lookup2 (headers : List (String × String)) (c : String)
    (hkeys : ∀ p ∈ headers, strToLower p.1 = p.1) (hc : strToLower c = c) :
    ((jsGet headers c).orElse (fun _ =>
      (jsGet headers c).orElse (fun _ => jsGet headers (capitalizeHeader c)))) =
      jsGet headers c := by
  cases h : jsGet headers c with
  | some v => rfl
  | none =>
    cases hcap : jsGet headers (capitalizeHeader c) with
    | none => simp [Option.orElse, h, hcap]
    | some v =>
      obtain ⟨p, hpmem, hpk⟩ := jsGet_some_key _ _ _ hcap
      have hst : strToLower (capitalizeHeader c) = capitalizeHeader c := by
        rw [← hpk]
        exact hkeys p hpmem
      rw [capitalizeHeader_of_stable c hc hst, h] at hcap
      exact Option.noConfusion hcap

/-- Component values agree between the outbound builder (over the headers
the signer used, possibly extended with `Content-Digest`) and the inbound
extractor over the received request, whose header names Node lowercases
and which additionally carries the two signature headers. -/
theorem received_value_eq (r : SignRequestData) (parts : URLParts)
    (cd extra : List (String × String))
    (hurl : urlParse r.url = some parts)
    (hcaller : ∀ p ∈ r.headers, strToLower p.1 = p.1 ∧ p.1 ≠ "content-digest")
    (hcd : cd = [] ∨ ∃ d, cd = [("Content-Digest", d)])
    (hextra : ∀ p ∈ extra, strToLower p.1 = "signature-input" ∨ strToLower p.1 = "signature")
    (c : String)
    (hc : (c = "@method" ∨ c = "@target-uri" ∨ c = "@authority" ∨ c = "@scheme" ∨
           c = "@path" ∨ c = "@query") ∨
          (jsStartsWith c "@" = false ∧ strToLower c = c ∧ c ≠ "signature" ∧
           c ≠ "signature-input")) :
    outboundComponentValue r (r.headers ++ cd) parts c =
      extractComponent (receivedRequest r ((r.headers ++ cd) ++ extra) parts) c := by
  rw [outboundComponentValue.eq_def]
  split
  · rcases hc with _ | ⟨hat, _, _, _⟩
    · exact (received_derived_eq r _ parts hurl).1.symm
    · exact absurd hat (by decide)
  · rcases hc with _ | ⟨hat, _, _, _⟩
    · exact (received_derived_eq r _ parts hurl).2.1.symm
    · exact absurd hat (by decide)
  · rcases hc with _ | ⟨hat, _, _, _⟩
    · exact (received_derived_eq r _ parts hurl).2.2.1.symm
    · exact absurd hat (by decide)
  · rcases hc with _ | ⟨hat, _, _, _⟩
    · exact (received_derived_eq r _ parts hurl).2.2.2.1.symm
    · exact absurd hat (by decide)
  · rcases hc with _ | ⟨hat, _, _, _⟩
    · exact (received_derived_eq r _ parts hurl).2.2.2.2.1.symm
    · exact absurd hat (by decide)
  · rcases hc with _ | ⟨hat, _, _, _⟩
    · exact (received_derived_eq r _ parts hurl).2.2.2.2.2.symm
    · exact absurd hat (by decide)
  · rename_i h1 h2 h3 h4 h5 h6
    rcases hc with hsix | ⟨hat, hstable, hns, hnsi⟩
    · rcases hsix with h | h | h | h | h | h
      · exact absurd h h1
      · exact absurd h h2
      · exact absurd h h3
      · exact absurd h h4
      · exact absurd h h5
      · exact absurd h h6
    · rw [extractComponent, if_neg (by rw [hat]; exact Bool.noConfusion)]
      have hmap : (receivedRequest r ((r.headers ++ cd) ++ extra) parts).headers =
          (((r.headers ++ cd) ++ extra).map (fun p => (strToLower p.1, p.2))).map
            (fun p => (p.1, HeaderValue.str p.2)) := by
        show ((r.headers ++ cd) ++ extra).map _ = _
        rw [List.map_map]
        rfl
      rw [hmap, jsGetH_map_str, hstable]
      rw [List.map_append]
      rw [jsGet_append_right_absent
        ((r.headers ++ cd).map (fun p => (strToLower p.1, p.2)))
        (extra.map (fun p => (strToLower p.1, p.2))) c (fun p hp => by
        obtain ⟨q, hq, hqe⟩ := List.mem_map.mp hp
        rcases hextra q hq with h | h
        · rw [← hqe]
          show strToLower q.1 ≠ c
          rw [h]
          exact fun he => hnsi he.symm
        · rw [← hqe]
          show strToLower q.1 ≠ c
          rw [h]
          exact fun he => hns he.symm)]
      have hcallmap : r.headers.map (fun p => (strToLower p.1, p.2)) = r.headers :=
        map_self_of_forall _ _ (fun p hp => by
          obtain ⟨a, b⟩ := p
          show (strToLower a, b) = (a, b)
          rw [(hcaller ⟨a, b⟩ hp).1])
      rcases hcd with hcd | ⟨d, hcd⟩
      · subst hcd
        simp only [List.append_nil]
        rw [hcallmap]
        rw [outbound_header_lookup2 r.headers c (fun p hp => (hcaller p hp).1) hstable]
        cases jsGet r.headers c <;> rfl
      · subst hcd
        rw [List.map_append, hcallmap]
        rw [show ([("Content-Digest", d)].map (fun p => (strToLower p.1, p.2))) =
          [("content-digest", d)] from by
          simp [show strToLower "Content-Digest" = "content-digest" from by decide]]
        by_cases hcdig : c = "content-digest"
        · subst hcdig
          rw [jsGet_append_hit _ _ _ (fun p hp => (hcaller p hp).2)]
          have ho1 : jsGet (r.headers ++ [("Content-Digest", d)]) "content-digest" = none :=
            jsGet_eq_none _ _ (fun p hp he => by
              rcases List.mem_append.mp hp with h | h
              · exact (hcaller p h).2 he
              · simp only [List.mem_singleton] at h
                rw [h] at he
                have he' : ("Content-Digest" : String) = "content-digest" := he
                exact absurd he' (by decide))
          rw [ho1]
          rw [show capitalizeHeader "content-digest" = "Content-Digest" from by decide]
          rw [jsGet_append_hit _ _ _ (fun p hp he => by
            have hst := (hcaller p hp).1
            rw [he] at hst
            exact absurd hst (by decide))]
          rfl
        · rw [jsGet_append_single _ _ _ _ hcdig]
          have hcne : c ≠ "Content-Digest" := fun he => by
            rw [he] at hstable
            exact absurd hstable (by decide)
          rw [jsGet_append_single _ _ _ _ hcne]
          have hcapne : capitalizeHeader c ≠ "Content-Digest" := fun he => by
            have hlow := congrArg strToLower he
            rw [strToLower_capitalizeHeader, hstable] at hlow
            rw [show strToLower "Content-Digest" = "content-digest" from by decide] at hlow
            exact hcdig hlow
          rw [jsGet_append_single _ _ _ _ hcapne]
          rw [outbound_header_lookup2 r.headers c (fun p hp => (hcaller p hp).1) hstable]
          cases jsGet r.headers c <;> rfl

/-- The signature base the verifier rebuilds from the received request
equals the one the signer built and signed. -/
theorem received_base_eq (r : SignRequestData) (parts : URLParts)
    (cd extra : List (String × String))
    (label keyId alg : String) (components : List String) (created : Nat)
    (hurl : urlParse r.url = some parts)
    (hcaller : ∀ p ∈ r.headers, strToLower p.1 = p.1 ∧ p.1 ≠ "content-digest")
    (hcd : cd = [] ∨ ∃ d, cd = [("Content-Digest", d)])
    (hextra : ∀ p ∈ extra, strToLower p.1 = "signature-input" ∨ strToLower p.1 = "signature")
    (hcomps : ∀ c ∈ components,
      (c = "@method" ∨ c = "@target-uri" ∨ c = "@authority" ∨ c = "@scheme" ∨
        c = "@path" ∨ c = "@query") ∨
      (jsStartsWith c "@" = false ∧ strToLower c = c ∧ c ≠ "signature" ∧
        c ≠ "signature-input")) :
    buildOutgoingSignatureBase r (r.headers ++ cd) components keyId alg created =
      some (buildSignatureBase (receivedRequest r ((r.headers ++ cd) ++ extra) parts)
        { label := label, components := components, keyid := keyId, alg := alg,
          created := some created, expires := none, nonce := none }) := by
  rw [buildOutgoingSignatureBase.eq_def]
  simp only [hurl]
  refine congrArg some ?_
  rw [buildSignatureBase]
  simp only []
  rw [foldl_lines (fun c => outboundComponentValue r (r.headers ++ cd) parts c),
    foldl_lines (fun c =>
      extractComponent (receivedRequest r ((r.headers ++ cd) ++ extra) parts) c)]
  rw [filterMap_congr_mem _ _ _ (fun c hcm => by
    rw [received_value_eq r parts cd extra hurl hcaller hcd hextra c (hcomps c hcm)])]
  rw [buildSignatureParams_eq]
  refine congrArg (String.intercalate "\n") ?_
  refine congrArg (fun pl => _ ++ [pl]) ?_
  apply String.ext
  simp [String.data_append]

/-- The two signature headers the signer appended are found (lowercased)
on the received request. -/
theorem received_sig_lookups (r : SignRequestData) (parts : URLParts)
    (cd : List (String × String)) (siv sgv : String)
    (hcall : ∀ p ∈ r.headers, strToLower p.1 = p.1 ∧ p.1 ≠ "signature" ∧
      p.1 ≠ "signature-input")
    (hcd : ∀ p ∈ cd, p.1 = "Content-Digest") :
    jsGetH (receivedRequest r ((r.headers ++ cd) ++
        [("Signature-Input", siv), ("Signature", sgv)]) parts).headers "signature" =
      some (HeaderValue.str sgv) ∧
    jsGetH (receivedRequest r ((r.headers ++ cd) ++
        [("Signature-Input", siv), ("Signature", sgv)]) parts).headers "signature-input" =
      some (HeaderValue.str siv) := by
  have hmap : (receivedRequest r ((r.headers ++ cd) ++
      [("Signature-Input", siv), ("Signature", sgv)]) parts).headers =
      (((r.headers ++ cd) ++ [("Signature-Input", siv), ("Signature", sgv)]).map
        (fun p => (strToLower p.1, p.2))).map (fun p => (p.1, HeaderValue.str p.2)) := by
    show ((r.headers ++ cd) ++ [("Signature-Input", siv), ("Signature", sgv)]).map _ = _
    rw [List.map_map]
    rfl
  have hcallmap : r.headers.map (fun p => (strToLower p.1, p.2)) = r.headers :=
    map_self_of_forall _ _ (fun p hp => by
      obtain ⟨a, b⟩ := p
      show (strToLower a, b) = (a, b)
      rw [(hcall ⟨a, b⟩ hp).1])
  have hLlow : ((r.headers ++ cd) ++ [("Signature-Input", siv), ("Signature", sgv)]).map
      (fun p => (strToLower p.1, p.2)) =
      (r.headers ++ cd.map (fun p => (strToLower p.1, p.2))) ++
        [("signature-input", siv), ("signature", sgv)] := by
    rw [List.map_append, List.map_append, hcallmap]
    rfl
  have hsplit : (r.headers ++ cd.map (fun p => (strToLower p.1, p.2))) ++
      [("signature-input", siv), ("signature", sgv)] =
      ((r.headers ++ cd.map (fun p => (strToLower p.1, p.2))) ++
        [("signature-input", siv)]) ++ [("signature", sgv)] := by
    simp
  have hcdlow : ∀ p ∈ cd.map (fun p => (strToLower p.1, p.2)), p.1 = "content-digest" := by
    intro p hp
    obtain ⟨q, hq, hqe⟩ := List.mem_map.mp hp
    rw [← hqe]
    show strToLower q.1 = _
    rw [hcd q hq]
    decide
  constructor
  · rw [hmap, jsGetH_map_str, hLlow, hsplit]
    rw [jsGet_append_hit _ _ _ (fun p hp => by
      rcases List.mem_append.mp hp with h | h
      · rcases List.mem_append.mp h with h | h
        · exact (hcall p h).2.1
        · rw [hcdlow p h]; decide
      · simp only [List.mem_singleton] at h
        rw [h]
        exact (by decide : ¬(("signature-input" : String) = "signature")))]
    rfl
  · rw [hmap, jsGetH_map_str, hLlow, hsplit]
    rw [jsGet_append_right_absent _ [("signature", sgv)] "signature-input" (fun p hp => by
      simp only [List.mem_singleton] at hp
      rw [hp]
      exact (by decide : ¬(("signature" : String) = "signature-input")))]
    rw [jsGet_append_hit _ _ _ (fun p hp => by
      rcases List.mem_append.mp hp with h | h
      · exact (hcall p h).2.2
      · rw [hcdlow p h]; decide)]
    rfl

/-- C1.  Round trip: signing a request description with a signer bound to
a key, key id, algorithm and component list, then running the middleware
verification pipeline on the received request (same clock, registry
resolving the bound algorithm, resolver yielding the matching public key
of the RSA keypair — `hcrypto` states that a signature produced by `sign`
verifies under it) succeeds with `valid := true` and echoes the same key
id, algorithm and component list that were used to sign. -/
theorem sign_verify_round_trip {K : Type} (algo : SignatureAlgorithm K) (key pub : K)
    (getAlgo : String → Option (SignatureAlgorithm K)) (resolver : KeyResolver K)
    (keyId alg : String) (components : List String) (sha256 : String → List Nat)
    (now : Nat) (r : SignRequestData) (parts : URLParts)
    (signed : List (String × String))
    (hsigned : signRequest algo key keyId alg components sha256 now r = some signed)
    (hurl : urlParse r.url = some parts)
    (hga : getAlgo alg = some algo)
    (hres : resolver.resolve keyId alg = Except.ok pub)
    (hcrypto : ∀ data sb, algo.sign key data = Except.ok sb →
      algo.verify pub sb data = Except.ok true ∧ (∀ b ∈ sb, b < 256) ∧ sb ≠ [])
    (hcomps : ∀ c ∈ components,
      (c = "@method" ∨ c = "@target-uri" ∨ c = "@authority" ∨ c = "@scheme" ∨
        c = "@path" ∨ c = "@query") ∨
      (jsStartsWith c "@" = false ∧ strToLower c = c ∧ c ≠ "signature" ∧
        c ≠ "signature-input"))
    (hcchars : ∀ c ∈ components, c.data ≠ [] ∧ ('"' : Char) ∉ c.data ∧
      (')' : Char) ∉ c.data ∧ (',' : Char) ∉ c.data)
    (hkeyid : keyId.data ≠ [] ∧ ∀ x ∈ keyId.data, x ≠ '"' ∧ x ≠ ';' ∧ x ≠ ',')
    (halg : alg.data ≠ [] ∧ ∀ x ∈ alg.data, x ≠ '"' ∧ x ≠ ';' ∧ x ≠ ',')
    (hheaders : ∀ p ∈ r.headers, strToLower p.1 = p.1 ∧ p.1 ≠ "content-digest" ∧
      p.1 ≠ "signature" ∧ p.1 ≠ "signature-input") :
    middlewareVerify now getAlgo (receivedRequest r signed parts) resolver {} =
      some { valid := true, keyId := some keyId, algorithm := some alg,
             components := some components, created := some now } := by
  -- Destructure the signing run.
  rw [signRequest] at hsigned
  simp only [] at hsigned
  have hnocdcap : ∀ p ∈ r.headers, p.1 ≠ "Content-Digest" := by
    intro p hp he
    have hst := (hheaders p hp).1
    rw [he] at hst
    exact absurd hst (by decide)
  obtain ⟨cd, hres_eq, hcd_shape⟩ :
      ∃ cd, (if (match r.body with
          | some body => body ≠ "" && components.contains "content-digest"
          | none => false) then
          jsSet r.headers "Content-Digest"
            (computeContentDigest sha256 (r.body.getD ""))
        else r.headers) = r.headers ++ cd ∧
        (cd = [] ∨ ∃ d, cd = [("Content-Digest", d)]) := by
    split_ifs with h
    · exact ⟨[("Content-Digest", computeContentDigest sha256 (r.body.getD ""))],
        jsSet_append_absent _ _ _ hnocdcap, Or.inr ⟨_, rfl⟩⟩
    · exact ⟨[], by simp, Or.inl rfl⟩
  rw [hres_eq] at hsigned
  have hcdkeys : ∀ p ∈ cd, p.1 = "Content-Digest" := by
    rcases hcd_shape with h | ⟨d, h⟩ <;> subst h
    · simp
    · intro p hp
      simp only [List.mem_singleton] at hp
      rw [hp]
  cases hB : buildOutgoingSignatureBase r (r.headers ++ cd) components keyId alg now with
  | none =>
    rw [hB] at hsigned
    exact Option.noConfusion hsigned
  | some sb =>
    rw [hB] at hsigned
    simp only [] at hsigned
    cases hS : algo.sign key (utf8Bytes sb) with
    | error e =>
      rw [hS] at hsigned
      exact Option.noConfusion hsigned
    | ok sigBytes =>
      rw [hS] at hsigned
      simp only [] at hsigned
      obtain ⟨hver, hbytes, hbne⟩ := hcrypto (utf8Bytes sb) sigBytes hS
      -- The signed header list.
      have habs1 : ∀ p ∈ r.headers ++ cd, p.1 ≠ "Signature-Input" := by
        intro p hp he
        rcases List.mem_append.mp hp with h | h
        · have hst := (hheaders p h).1
          rw [he] at hst
          exact absurd hst (by decide)
        · rw [hcdkeys p h] at he
          exact absurd he (by decide)
      have habs2 : ∀ p ∈ (r.headers ++ cd) ++
          [("Signature-Input", "sig1=(" ++
            String.intercalate " " (components.map (fun c => "\"" ++ c ++ "\"")) ++
            ");keyid=\"" ++ keyId ++ "\";alg=\"" ++ alg ++ "\";created=" ++
            natDecStr now)], p.1 ≠ "Signature" := by
        intro p hp he
        rcases List.mem_append.mp hp with h | h
        · rcases List.mem_append.mp h with h | h
          · have hst := (hheaders p h).1
            rw [he] at hst
            exact absurd hst (by decide)
          · rw [hcdkeys p h] at he
            exact absurd he (by decide)
        · simp only [List.mem_singleton] at h
          rw [h] at he
          exact absurd (show ("Signature-Input" : String) = "Signature" from he) (by decide)
      rw [jsSet_append_absent _ _ _ habs1, jsSet_append_absent _ _ _ habs2] at hsigned
      injection hsigned with hsigned
      have hsigned_eq : signed = (r.headers ++ cd) ++
          [("Signature-Input", "sig1=(" ++
            String.intercalate " " (components.map (fun c => "\"" ++ c ++ "\"")) ++
            ");keyid=\"" ++ keyId ++ "\";alg=\"" ++ alg ++ "\";created=" ++
            natDecStr now),
           ("Signature", "sig1=:" ++ String.mk (base64Encode sigBytes) ++ ":")] := by
        rw [← hsigned]
        simp
      rw [hsigned_eq]
      -- Header lookups on the received request.
      obtain ⟨hgets, hgeti⟩ := received_sig_lookups r parts cd
        ("sig1=(" ++ String.intercalate " " (components.map (fun c => "\"" ++ c ++ "\"")) ++
          ");keyid=\"" ++ keyId ++ "\";alg=\"" ++ alg ++ "\";created=" ++ natDecStr now)
        ("sig1=:" ++ String.mk (base64Encode sigBytes) ++ ":")
        (fun p hp => ⟨(hheaders p hp).1, (hheaders p hp).2.2.1, (hheaders p hp).2.2.2⟩)
        hcdkeys
      rw [middlewareVerify]
      rw [hgets, hgeti]
      simp only []
      -- Parse the two headers.
      rw [parseSignatureInput_gen components keyId alg now hcchars
        hkeyid.1 hkeyid.2 halg.1 halg.2]
      rw [parseSignature_gen sigBytes hbne hbytes]
      simp only [List.head?_cons, List.find?_cons, decide_True]
      refine congrArg some ?_
      -- Run the verifier with all pre-checks passing.
      rw [verify_checks_pass now getAlgo _ _ _ resolver {} algo hga
        (fun allow h => Option.noConfusion h)
        (fun c h => by injection h with h; subst h; simp)
        (fun c h => by injection h with h; subst h; simp)
        (fun e h => Option.noConfusion h)]
      simp only []
      rw [hres]
      have hbase : buildSignatureBase (receivedRequest r ((r.headers ++ cd) ++
          [("Signature-Input", "sig1=(" ++
            String.intercalate " " (components.map (fun c => "\"" ++ c ++ "\"")) ++
            ");keyid=\"" ++ keyId ++ "\";alg=\"" ++ alg ++ "\";created=" ++
            natDecStr now),
           ("Signature", "sig1=:" ++ String.mk (base64Encode sigBytes) ++ ":")]) parts)
          { label := "sig1", components := components, keyid := keyId, alg := alg,
            created := some now, expires := none, nonce := none } = sb := by
        have hrb := received_base_eq r parts cd
          [("Signature-Input", "sig1=(" ++
            String.intercalate " " (components.map (fun c => "\"" ++ c ++ "\"")) ++
            ");keyid=\"" ++ keyId ++ "\";alg=\"" ++ alg ++ "\";created=" ++
            natDecStr now),
           ("Signature", "sig1=:" ++ String.mk (base64Encode sigBytes) ++ ":")]
          "sig1" keyId alg components now hurl
          (fun p hp => ⟨(hheaders p hp).1, (hheaders p hp).2.1⟩)
          hcd_shape
          (fun p hp => by
            simp only [List.mem_cons, List.mem_singleton, List.not_mem_nil, or_false] at hp
            rcases hp with h | h <;> rw [h]
            · exact Or.inl (show strToLower "Signature-Input" = "signature-input" from
                by decide)
            · exact Or.inr (show strToLower "Signature" = "signature" from by decide))
          hcomps
        rw [hB] at hrb
        injection hrb with hrb
        exact hrb.symm
      rw [hbase]
      simp [hver]

/-- Witness for C1 at a concrete request (`POST
https://example.com/api/data?x=1` with a body, a caller header, every
derived component, an ordinary header and `content-digest` among the
signed components) and a toy keypair whose signer emits `[1, 2, 3]` and
whose verifier accepts exactly that signature. -/
theorem sign_verify_round_trip_witness :
    middlewareVerify 1704067200
      (fun s => if s = "rsa-pss-sha512" then
        some (⟨"rsa-pss-sha512", fun _ sig _ => Except.ok (decide (sig = [1, 2, 3])),
          fun _ _ => Except.ok [1, 2, 3]⟩ : SignatureAlgorithm Unit) else none)
      (receivedRequest
        ⟨"POST", "https://example.com/api/data?x=1",
          [("content-type", "application/json")], some "hello"⟩
        [("content-type", "application/json"), ("Content-Digest", "sha-256=:Bwc=:"),
         ("Signature-Input",
          "sig1=(\"@method\" \"@target-uri\" \"@authority\" \"@scheme\" \"@path\" \"@query\" \"content-type\" \"content-digest\");keyid=\"client-key-1\";alg=\"rsa-pss-sha512\";created=1704067200"),
         ("Signature", "sig1=:AQID:")]
        ⟨"https", "example.com", "/api/data", "?x=1"⟩)
      ⟨fun _ _ => Except.ok ()⟩ {} =
      some { valid := true, keyId := some "client-key-1",
             algorithm := some "rsa-pss-sha512",
             components := some ["@method", "@target-uri", "@authority", "@scheme",
               "@path", "@query", "content-type", "content-digest"],
             created := some 1704067200 } := by
  refine sign_verify_round_trip
    (⟨"rsa-pss-sha512", fun _ sig _ => Except.ok (decide (sig = [1, 2, 3])),
      fun _ _ => Except.ok [1, 2, 3]⟩ : SignatureAlgorithm Unit) () ()
    (fun s => if s = "rsa-pss-sha512" then
      some (⟨"rsa-pss-sha512", fun _ sig _ => Except.ok (decide (sig = [1, 2, 3])),
        fun _ _ => Except.ok [1, 2, 3]⟩ : SignatureAlgorithm Unit) else none)
    ⟨fun _ _ => Except.ok ()⟩ "client-key-1" "rsa-pss-sha512"
    ["@method", "@target-uri", "@authority", "@scheme", "@path", "@query",
     "content-type", "content-digest"]
    (fun _ => [7, 7]) 1704067200
    ⟨"POST", "https://example.com/api/data?x=1",
      [("content-type", "application/json")], some "hello"⟩
    ⟨"https", "example.com", "/api/data", "?x=1"⟩
    [("content-type", "application/json"), ("Content-Digest", "sha-256=:Bwc=:"),
     ("Signature-Input",
      "sig1=(\"@method\" \"@target-uri\" \"@authority\" \"@scheme\" \"@path\" \"@query\" \"content-type\" \"content-digest\");keyid=\"client-key-1\";alg=\"rsa-pss-sha512\";created=1704067200"),
     ("Signature", "sig1=:AQID:")]
    rfl rfl rfl rfl ?_ ?_ ?_ ?_ ?_ ?_
  · intro data sb h
    injection h with h
    subst h
    exact ⟨rfl, by decide, by decide⟩
  · decide
  · decide
  · decide
  · decide
  · decide

end HttpSig
